import Mathlib

/-!
sync-cloud-storage: the durable store, the blob mapper and the transfer drivers.

A shallow embedding of the Go sources `database/main.go`, `sync/main.go`,
`download/azure/main.go`, `upload/s3/main.go`, `helpers/data_processing.go` and
`init.go`.

* A table is the list of its rows in rowid (insertion) order.
* SQL statements are pure functions on tables. The two bookkeeping writes
  `SetAzureFlag` and `SetS3Flag`, whose errors the program discards, take a flag
  that says whether the statement was executed; the other statements are taken
  as executed.
* Calls to the blob-store providers and to the clock are inputs of the
  functions that make them.
* The workers of a batch are started together: each reads its staging file
  name from the queue as it was built, and they then finish one after the other
  in index order.
* Go strings are byte strings; the characters the code inspects (`.`, `/`) are
  ASCII, so the functions below work on the characters of a `String`.
-/

namespace SyncCloudStorage

/-! ## Data model (`database/main.go`, `BuildTable`) -/

/-- A row of `containers(name TEXT UNIQUE, status INTEGER DEFAULT 0, created_at TEXT)`. -/
structure Container where
  name : String
  status : Nat
  created_at : Nat
  deriving DecidableEq, Repr

/-- A row of the `sync` table. The two error columns and `updated_at` have no
default and are NULL (`none`) until written. -/
structure SyncRecord where
  id : Nat
  container : String
  blob : String
  azure_status : Nat
  azure_error : Option String
  s3_status : Nat
  s3_error : Option String
  created_at : Nat
  updated_at : Option Nat
  deriving DecidableEq, Repr

/-- The two tables, both present. -/
structure DB where
  containers : List Container
  sync : List SyncRecord
  deriving DecidableEq, Repr

/-- The store file: each table is absent (`none`) or present with its rows. -/
structure Store where
  containers : Option (List Container)
  sync : Option (List SyncRecord)
  deriving DecidableEq, Repr

/-! ## Constants of `sync/main.go` -/

def containerNotFound : Nat := 404
def blobNotFound : Nat := 503
def traverseCompleted : Nat := 200
def liveContainer : Nat := 100

/-- The array `fileExceptionList` of type `[3]string`. -/
def fileExceptionList : List String := [".xml", ".ism", ".ismc"]

/-- The array `containerExceptionList` of type `[15]string`: three names and
twelve zero values (empty strings). -/
def containerExceptionList : List String :=
  ["test", "dummy", "others"] ++ List.replicate 12 ""

/-- The array `liveContainerList` of `sync/main.go`, of type `[16]string`: five
names and eleven zero values (empty strings). -/
def liveContainerList : List String :=
  ["employees-data", "employees-indentity", "videos", "images", "reports"] ++
    List.replicate 11 ""

/-- The loop of `isLiveContainer`: true at the first equal entry. -/
def isLiveContainer : List String → String → Bool
  | [], _ => false
  | live :: rest, containerName =>
    if live = containerName then true else isLiveContainer rest containerName

/-- The loop of `isValidContainer`: false at the first equal entry. -/
def isValidContainer : List String → String → Bool
  | [], _ => true
  | exceptContainer :: rest, containerName =>
    if exceptContainer = containerName then false else isValidContainer rest containerName

/-- The loop of `isValidExtension`: false at the first equal entry. -/
def isValidExtension : List String → String → Bool
  | [], _ => true
  | exceptionExt :: rest, azureFileExt =>
    if exceptionExt = azureFileExt then false else isValidExtension rest azureFileExt

/-- The backwards scan of Go's `filepath.Ext` (Unix separator): `rev` is the
part of the path not yet inspected, last character first, and `acc` the
characters already passed. -/
def extScan : List Char → List Char → List Char
  | [], _ => []
  | c :: rest, acc =>
    if c = '/' then []
    else if c = '.' then '.' :: acc
    else extScan rest (c :: acc)

/-- Go's `filepath.Ext`: the suffix starting at the last dot of the last path
element, empty when there is none. -/
def Ext (path : String) : String :=
  String.mk (extScan path.data.reverse [])

/-! ## Statements of `database/main.go` and `sync/main.go` on the tables -/

/-- The statement `INSERT or IGNORE INTO containers(name, created_at) values(?,?)`
under `name TEXT UNIQUE`: ignored when a row has the name, else a row with the
default status 0 is appended. -/
def InsertInContainer (now : Nat) (container : String) (t : List Container) :
    List Container :=
  if t.any (fun r => r.name == container) then t
  else t ++ [{ name := container, status := 0, created_at := now }]

/-- The statement `UPDATE containers SET status = ? WHERE name = ?`. -/
def updateContainerStatus (status : Nat) (name : String) (t : List Container) :
    List Container :=
  t.map (fun r => if r.name = name then { r with status := status } else r)

/-- The statement `SELECT name FROM containers WHERE status = 0 LIMIT 100`. -/
def GetPendingContainer (t : List Container) : List String :=
  ((t.filter (fun r => r.status == 0)).take 100).map (fun r => r.name)

/-- The statement `select count(*) from sync where container=? and blob=?`. -/
def countSync (container blob : String) (t : List SyncRecord) : Nat :=
  (t.filter (fun r => r.container == container && r.blob == blob)).length

/-- The next AUTOINCREMENT key: one more than the largest key in use. The
program deletes no row, so the largest key ever used is the largest present. -/
def nextId (t : List SyncRecord) : Nat :=
  (t.foldl (fun m r => max m r.id) 0) + 1

/-- The statement `INSERT INTO sync(container, blob, created_at) values(?,?,?)`:
the other columns take their defaults. -/
def insertSync (now : Nat) (container blob : String) (t : List SyncRecord) :
    List SyncRecord :=
  t ++ [{ id := nextId t, container := container, blob := blob, azure_status := 0,
          azure_error := none, s3_status := 0, s3_error := none, created_at := now,
          updated_at := none }]

/-! ## The blob mapper: `traverseContainerWorker` -/

/-- The faults `ListBlobs` can report. -/
inductive Fault where
  /-- A storage error with service code `ContainerNotFound`. -/
  | containerNotFound
  /-- A storage error with another service code. -/
  | otherService
  /-- An error that is not a storage error. -/
  | otherError
  deriving DecidableEq, Repr

/-- What the successive `ListBlobs` calls on one container return: a segment
with a next marker (`more`), a segment with the final marker (`last`), or an
error. -/
inductive Listing where
  | last (blobs : List String)
  | more (blobs : List String) (rest : Listing)
  | fault (f : Fault)
  deriving Repr

/-- How a worker run ends. -/
inductive Ending where
  /-- The function returned. -/
  | finished
  /-- The `log.Fatal` of `handleErrors` ended the process. -/
  | fatal
  /-- The response of a failed `ListBlobs` call is nil and reading its
  `NextMarker` ended the process. -/
  | crashed
  deriving DecidableEq, Repr

/-- The state of a worker run: the counter `fileCount` and the tables. -/
structure Scan where
  fileCount : Nat
  db : DB
  deriving DecidableEq, Repr

/-- The result of a worker run. -/
structure WorkerResult where
  ending : Ending
  db : DB
  deriving DecidableEq, Repr

/-- The body of the loop over `listBlob.Blobs.Blob` for one blob. -/
def mapBlob (now : Nat) (containerName : String) (s : Scan) (blobName : String) : Scan :=
  if isValidExtension fileExceptionList (Ext blobName) then
    if countSync containerName blobName s.db.sync = 0 then
      { fileCount := s.fileCount + 1,
        db := { s.db with sync := insertSync now containerName blobName s.db.sync } }
    else
      { s with fileCount := s.fileCount + 1 }
  else s

/-- The loop over the blobs of one segment. -/
def mapSegment (now : Nat) (containerName : String) (s : Scan) (blobs : List String) : Scan :=
  blobs.foldl (mapBlob now containerName) s

/-- The lines after the pagination loop: choose the status from `fileCount`
and the live list, and write it. -/
def finishContainer (containerName : String) (s : Scan) : WorkerResult :=
  let containerStatus :=
    if s.fileCount = 0 then blobNotFound
    else if isLiveContainer liveContainerList containerName then liveContainer
    else traverseCompleted
  { ending := Ending.finished,
    db := { s.db with
      containers := updateContainerStatus containerStatus containerName s.db.containers } }

/-- The pagination loop of `traverseContainerWorker` followed by the lines
after it. On `ContainerNotFound` the status 404 is written and `break` leaves
the loop, so the lines after the loop still run. -/
def traverseLoop (now : Nat) (containerName : String) : Listing → Scan → WorkerResult
  | Listing.fault Fault.containerNotFound, s =>
    finishContainer containerName
      { s with db := { s.db with
          containers := updateContainerStatus containerNotFound containerName s.db.containers } }
  | Listing.fault Fault.otherService, s => { ending := Ending.crashed, db := s.db }
  | Listing.fault Fault.otherError, s => { ending := Ending.fatal, db := s.db }
  | Listing.last blobs, s => finishContainer containerName (mapSegment now containerName s blobs)
  | Listing.more blobs rest, s =>
    traverseLoop now containerName rest (mapSegment now containerName s blobs)

/-- The function `traverseContainerWorker`: `fileCount` starts at 0. -/
def traverseContainerWorker (now : Nat) (containerName : String) (listing : Listing)
    (db : DB) : WorkerResult :=
  traverseLoop now containerName listing { fileCount := 0, db := db }

/-- The status stored for a container name, if a row has it. -/
def statusOf (t : List Container) (name : String) : Option Nat :=
  (t.find? (fun r => r.name == name)).map (fun r => r.status)

/-- All blob names a listing returns, in order. -/
def Listing.blobs : Listing → List String
  | Listing.last bs => bs
  | Listing.more bs rest => bs ++ rest.blobs
  | Listing.fault _ => []

/-- Whether a listing completes without fault. -/
def Listing.faultFree : Listing → Bool
  | Listing.last _ => true
  | Listing.more _ rest => rest.faultFree
  | Listing.fault _ => false

/-- Whether a listing ends in the container-not-found fault. -/
def Listing.notFound : Listing → Bool
  | Listing.last _ => false
  | Listing.more _ rest => rest.notFound
  | Listing.fault f => decide (f = Fault.containerNotFound)

/-- Whether a blob name passes the extension filter of the mapper. -/
def eligible (blobName : String) : Bool :=
  isValidExtension fileExceptionList (Ext blobName)

/-! ## `helpers/data_processing.go`: `ProcessBlobName` -/

/-- Go's `strings.HasPrefix`. -/
def HasPrefix (s pre : String) : Bool :=
  pre.data.isPrefixOf s.data

/-- Go's `strings.HasSuffix`. -/
def HasSuffix (s suf : String) : Bool :=
  suf.data.reverse.isPrefixOf s.data.reverse

/-- The left-to-right scan of Go's `strings.Replace` with count -1 and a
non-empty `old`: `skip` counts the characters of a matched occurrence still to
be passed over. -/
def replaceScan (old new : List Char) : Nat → List Char → List Char
  | _, [] => []
  | skip + 1, _ :: rest => replaceScan old new skip rest
  | 0, c :: rest =>
    if old.isPrefixOf (c :: rest) then new ++ replaceScan old new (old.length - 1) rest
    else c :: replaceScan old new 0 rest

/-- Go's `strings.Replace(s, old, new, -1)` for a non-empty `old` (the only
use in the program); an empty `old` is left alone here. -/
def Replace (s old new : String) : String :=
  if old.data = [] then s else String.mk (replaceScan old.data new.data 0 s.data)

/-- The function `ProcessBlobName`. -/
def ProcessBlobName (containerName blobName : String) : String :=
  if HasPrefix containerName "asset-" then
    if HasSuffix blobName "1800kbps_AAC_und_ch2_128kbps.mp4" then
      Replace blobName "_H264_1800kbps_AAC_und_ch2_128kbps" "-sd"
    else if HasSuffix blobName "4500kbps_AAC_und_ch2_128kbps.mp4" then
      Replace blobName "_H264_4500kbps_AAC_und_ch2_128kbps" "-hd"
    else blobName
  else blobName

/-! ## The polls and the bookkeeping writes of `database/main.go` -/

/-- The rows selected by `SELECT container, blob FROM sync WHERE azure_status = 0
LIMIT 10` (a table scan, so in rowid order). -/
def pendingAzureRows (t : List SyncRecord) : List SyncRecord :=
  (t.filter (fun r => r.azure_status == 0)).take 10

/-- The function `GetPendingAzureContent`: the (container, blob) pairs of the
selected rows, indexed from 0. -/
def GetPendingAzureContent (t : List SyncRecord) : List (String × String) :=
  (pendingAzureRows t).map (fun r => (r.container, r.blob))

/-- The rows selected by `SELECT container, blob FROM sync WHERE azure_status = 1
AND s3_status = 0 order by id desc LIMIT 10`. -/
def pendingS3Rows (t : List SyncRecord) : List SyncRecord :=
  ((t.filter (fun r => r.azure_status == 1 && r.s3_status == 0)).insertionSort
    (fun a b => b.id ≤ a.id)).take 10

/-- The function `GetPendingS3Content`: the (container, blob) pairs of the
selected rows, indexed from 0. -/
def GetPendingS3Content (t : List SyncRecord) : List (String × String) :=
  (pendingS3Rows t).map (fun r => (r.container, r.blob))

/-- The function `SetAzureFlag`: `UPDATE sync SET azure_status = ?, azure_error = ?,
updated_at = ? WHERE container = ? AND blob = ?`. The function discards the
errors of `Prepare` and `Exec` and works on the package-level handle, which the
`CloseConnection` of another call may have closed; `applied` says whether the
statement was executed. -/
def SetAzureFlag (applied : Bool) (now : Nat) (containerName blobName : String)
    (statusCode : Nat) (errorMessage : String) (t : List SyncRecord) : List SyncRecord :=
  if applied then
    t.map (fun r =>
      if r.container = containerName ∧ r.blob = blobName then
        { r with azure_status := statusCode, azure_error := some errorMessage,
                 updated_at := some now }
      else r)
  else t

/-- The function `SetS3Flag`: `UPDATE sync SET s3_status = ?, s3_error = ?,
updated_at = ? WHERE container = ? AND blob = ?`. As in `SetAzureFlag` the
errors are discarded and `applied` says whether the statement was executed. -/
def SetS3Flag (applied : Bool) (now : Nat) (containerName blobName : String)
    (statusCode : Nat) (errorMessage : String) (t : List SyncRecord) : List SyncRecord :=
  if applied then
    t.map (fun r =>
      if r.container = containerName ∧ r.blob = blobName then
        { r with s3_status := statusCode, s3_error := some errorMessage,
                 updated_at := some now }
      else r)
  else t

/-! ## The transfer drivers -/

def statusCompleted : Nat := 1
def statusFailed : Nat := 2

/-- A Go `map[string]string`, as an association list with one entry per key. -/
abbrev Queue := List (String × String)

/-- Reading `q[k]`: the zero value (empty string) when the key is absent. -/
def Queue.get (q : Queue) (k : String) : String :=
  match q.find? (fun p => p.1 == k) with
  | some p => p.2
  | none => ""

/-- The built-in `delete(q, k)`. -/
def Queue.delete (q : Queue) (k : String) : Queue :=
  q.filter (fun p => !(p.1 == k))

/-- The assignment `q[k] = v`. -/
def Queue.set (q : Queue) (k v : String) : Queue :=
  (k, v) :: q.delete k

/-- The loop "Creating Queue" of `initiateDownload` and `initiateUpload`: the
key is the blob name alone. -/
def buildQueue (syncList : List (String × String)) : Queue :=
  syncList.foldl (fun q sc => q.set sc.2 (ProcessBlobName sc.1 sc.2)) []

/-- The staging directory and the sync table. `files` lists the paths present
in the staging directory, the ones `os.Open` can open. -/
structure World where
  sync : List SyncRecord
  files : List String
  deriving DecidableEq, Repr

/-- Go's `os.Create` on the model of the staging directory. -/
def createFile (files : List String) (path : String) : List String :=
  if path ∈ files then files else path :: files

/-- Go's `os.Remove` on the model of the staging directory. -/
def removeFile (files : List String) (path : String) : List String :=
  files.filter (fun p => !(p == path))

/-- What one download worker gets from outside: the clock reading of its
bookkeeping write, the result of `io.Copy` (`none` for success, else the text
of `downloadErr.Error()`), and whether its bookkeeping write was executed. -/
structure DownloadAttempt where
  now : Nat
  copy : Option String
  writeApplied : Bool
  deriving DecidableEq, Repr

/-- The function `startWorker` of `download/azure/main.go`. `seen` is the queue
as the worker reads it at its start (`fileName := downloadQueue[blobName]`);
the second component of the state is the queue its `delete` acts on. -/
def Azure.startWorker (mediaFolder : String) (a : DownloadAttempt)
    (syncContent : String × String) (seen : Queue) (st : World × Queue) : World × Queue :=
  let containerName := syncContent.1
  let blobName := syncContent.2
  let fileName := seen.get blobName
  let files := createFile st.1.files (mediaFolder ++ fileName)
  match a.copy with
  | some downloadErr =>
    ({ sync := SetAzureFlag a.writeApplied a.now containerName blobName statusFailed
                 downloadErr st.1.sync,
       files := removeFile files (mediaFolder ++ fileName) },
     st.2.delete blobName)
  | none =>
    ({ sync := SetAzureFlag a.writeApplied a.now containerName blobName statusCompleted ""
                 st.1.sync,
       files := files },
     st.2.delete blobName)

/-- The workers of one batch. They are started together, so each reads its
file name from the queue `seen` as it was built; they then finish one after
the other in index order. `attempt idx` is what worker `idx` gets from
outside. -/
def downloadBatch (mediaFolder : String) (attempt : Nat → DownloadAttempt) (seen : Queue) :
    Nat → List (String × String) → World × Queue → World × Queue
  | _, [], st => st
  | idx, sc :: rest, st =>
    downloadBatch mediaFolder attempt seen (idx + 1) rest
      (Azure.startWorker mediaFolder (attempt idx) sc seen st)

/-- The function `initiateDownload`, with a bound on the recursion depth:
`none` when the bound is reached. The result lists the size of each polled
batch, in order, with the final state. -/
def initiateDownload (mediaFolder : String) (attempt : Nat → Nat → DownloadAttempt) :
    Nat → Nat → World → Option (List Nat × World)
  | 0, _, _ => none
  | fuel + 1, poll, w =>
    let syncList := GetPendingAzureContent w.sync
    let w1 := (downloadBatch mediaFolder (attempt poll) (buildQueue syncList) 0 syncList
      (w, buildQueue syncList)).1
    if syncList.length ≠ 0 then
      (initiateDownload mediaFolder attempt fuel (poll + 1) w1).map
        (fun r => (syncList.length :: r.1, r.2))
    else some ([0], w1)

/-- What one upload worker gets from outside: the clock reading of its
bookkeeping write, whether `session.NewSession` failed, the result of
`uploader.Upload` (`none` for success, else the text of `uploadErr.Error()`),
and whether its bookkeeping write was executed. -/
structure UploadAttempt where
  now : Nat
  sessionFails : Bool
  upload : Option String
  writeApplied : Bool
  deriving DecidableEq, Repr

/-- How far a run of upload workers got. -/
inductive UploadRun where
  /-- Every worker so far returned. -/
  | running (w : World) (q : Queue)
  /-- The call `os.Exit(1)` of `exitErrorf` ended the process. -/
  | exited (w : World)
  deriving DecidableEq, Repr

/-- The function `startWorker` of `upload/s3/main.go`. `seen` is the queue as
the worker reads it at its start (`os.Open(mediaFolder + uploadQueue[blobName])`),
`q` the queue its `delete` acts on. `os.Open` fails when the path is not in
the staging directory. -/
def S3.startWorker (mediaFolder : String) (a : UploadAttempt)
    (syncContent : String × String) (seen : Queue) (w : World) (q : Queue) : UploadRun :=
  let containerName := syncContent.1
  let blobName := syncContent.2
  if ¬ (mediaFolder ++ seen.get blobName) ∈ w.files then UploadRun.exited w
  else if a.sessionFails then UploadRun.exited w
  else
    match a.upload with
    | some uploadErr =>
      UploadRun.running
        { w with sync := SetS3Flag a.writeApplied a.now containerName blobName statusFailed
                           uploadErr w.sync }
        (q.delete blobName)
    | none =>
      UploadRun.running
        { w with sync := SetS3Flag a.writeApplied a.now containerName blobName
                           statusCompleted "" w.sync }
        (q.delete blobName)

/-- The workers of one upload batch. They are started together, so each reads
its file name from the queue `seen` as it was built; they then finish one
after the other in index order, and nothing runs after the process has
exited. -/
def uploadBatch (mediaFolder : String) (attempt : Nat → UploadAttempt) (seen : Queue) :
    Nat → List (String × String) → UploadRun → UploadRun
  | _, [], r => r
  | _, _ :: _, UploadRun.exited w => UploadRun.exited w
  | idx, sc :: rest, UploadRun.running w q =>
    uploadBatch mediaFolder attempt seen (idx + 1) rest
      (S3.startWorker mediaFolder (attempt idx) sc seen w q)

/-- One poll of `initiateUpload` with its batch: the poll, the queue and the
workers. -/
def uploadPoll (mediaFolder : String) (attempt : Nat → UploadAttempt) (w : World) : UploadRun :=
  let syncList := GetPendingS3Content w.sync
  uploadBatch mediaFolder attempt (buildQueue syncList) 0 syncList
    (UploadRun.running w (buildQueue syncList))

/-- The sync table a run of upload workers leaves. -/
def UploadRun.sync : UploadRun → List SyncRecord
  | UploadRun.running w _ => w.sync
  | UploadRun.exited w => w.sync

/-- Whether the process exited during a run of upload workers. -/
def UploadRun.hasExited : UploadRun → Bool
  | UploadRun.running _ _ => false
  | UploadRun.exited _ => true

/-! ## `CleanUp`, `BuildTable` and the dispatch of `init.go` -/

/-- The function `CleanUp`: `DROP TABLE IF EXISTS containers` and `DROP TABLE IF
EXISTS sync`. Both statements succeed on a reliable store, so it returns
true. -/
def CleanUp (_s : Store) : Bool × Store :=
  (true, { containers := none, sync := none })

/-- The function `BuildTable`: `CREATE TABLE IF NOT EXISTS` for both tables. -/
def BuildTable (s : Store) : Bool × Store :=
  (true, { containers := some (s.containers.getD []), sync := some (s.sync.getD []) })

/-- The five mode flags parsed by `main`. -/
structure Flags where
  syncFlag : Bool
  cleanFlag : Bool
  uploadFlag : Bool
  downloadFlag : Bool
  resetLiveContainerFlag : Bool
  deriving DecidableEq, Repr

/-- The branches of the chain under "Check Flag" in `main`. -/
inductive Branch where
  | sync
  | clean
  | upload
  | download
  | resetLive
  /-- The final `else`, which prints "Invalid Flag". -/
  | invalidFlag
  deriving DecidableEq, Repr

/-- The chain of `if` and `else if` under "Check Flag" in `main`. -/
def dispatch (f : Flags) : Branch :=
  if f.syncFlag then Branch.sync
  else if f.cleanFlag then Branch.clean
  else if f.uploadFlag then Branch.upload
  else if f.downloadFlag then Branch.download
  else if f.resetLiveContainerFlag then Branch.resetLive
  else Branch.invalidFlag

/-- The store after the `clean` branch of `main`, which only calls `CleanUp`
(and prints a line when it returns false). -/
def cleanBranch (s : Store) : Store :=
  (CleanUp s).2

/-- How many of the five mode flags are set. -/
def Flags.count (f : Flags) : Nat :=
  f.syncFlag.toNat + f.cleanFlag.toNat + f.uploadFlag.toNat + f.downloadFlag.toNat +
    f.resetLiveContainerFlag.toNat

/-- The (container, blob) pair of a sync record. -/
def SyncRecord.key (r : SyncRecord) : String × String :=
  (r.container, r.blob)

/-- At most one record per (container, blob) pair. -/
def uniqueKeys (t : List SyncRecord) : Prop :=
  (t.map SyncRecord.key).Nodup

/-- The number of records pending download. -/
def pendingCount (t : List SyncRecord) : Nat :=
  (t.filter (fun r => r.azure_status == 0)).length

/-! ## Concrete inputs used in the checks below -/

/-- A containers table with one pending row for each of two names. -/
def demoContainers : List Container :=
  [{ name := "images", status := 0, created_at := 1 },
   { name := "archive", status := 0, created_at := 2 }]

/-- A store with both tables and no sync record. -/
def demoDB : DB :=
  { containers := demoContainers, sync := [] }

/-- A listing of one segment: an eligible blob and a blob with an excluded
extension. -/
def demoListing : Listing :=
  Listing.last ["a.jpg", "b.xml"]

/-- A listing whose first call reports that the container is not found. -/
def notFoundAtOnce : Listing :=
  Listing.fault Fault.containerNotFound

/-- A listing with one segment holding an eligible blob, followed by the
container-not-found fault on the next call. -/
def notFoundLater : Listing :=
  Listing.more ["a.jpg"] (Listing.fault Fault.containerNotFound)

/-- The status the mapper chooses from the number of eligible blobs counted. -/
def scanStatus (containerName : String) (fileCount : Nat) : Nat :=
  if fileCount = 0 then blobNotFound
  else if isLiveContainer liveContainerList containerName then liveContainer
  else traverseCompleted

/-- Both `sync` and `clean` set. -/
def syncAndClean : Flags :=
  { syncFlag := true, cleanFlag := true, uploadFlag := false, downloadFlag := false,
    resetLiveContainerFlag := false }

/-- Only `upload` set. -/
def onlyUpload : Flags :=
  { syncFlag := false, cleanFlag := false, uploadFlag := true, downloadFlag := false,
    resetLiveContainerFlag := false }

/-- A store with both tables present and one row in each. -/
def demoStore : Store :=
  { containers := some demoContainers,
    sync := some [{ id := 1, container := "images", blob := "a.jpg", azure_status := 0,
                    azure_error := none, s3_status := 0, s3_error := none, created_at := 3,
                    updated_at := none }] }

/-- A listing of two segments that repeats a blob name. -/
def repeatingListing : Listing :=
  Listing.more ["a.jpg", "b.xml", "a.jpg"] (Listing.last ["c.png", "a.jpg"])


/-- A sync record as the mapper inserts it: both statuses pending. -/
def pendingRow (id : Nat) (container blob : String) : SyncRecord :=
  { id := id, container := container, blob := blob, azure_status := 0, azure_error := none,
    s3_status := 0, s3_error := none, created_at := id, updated_at := none }

/-- A sync record that has been downloaded and not yet uploaded. -/
def downloadedRow (id : Nat) (container blob : String) : SyncRecord :=
  { id := id, container := container, blob := blob, azure_status := 1, azure_error := some "",
    s3_status := 0, s3_error := none, created_at := id, updated_at := some id }

/-- Eleven records pending download, the eleventh with the (container, blob)
pair of the first. -/
def elevenWithRepeat : List SyncRecord :=
  [pendingRow 1 "c" "b0", pendingRow 2 "c" "b1", pendingRow 3 "c" "b2", pendingRow 4 "c" "b3",
   pendingRow 5 "c" "b4", pendingRow 6 "c" "b5", pendingRow 7 "c" "b6", pendingRow 8 "c" "b7",
   pendingRow 9 "c" "b8", pendingRow 10 "c" "b9", pendingRow 11 "c" "b0"]

/-- Three records, two of them pending download. -/
def threeRecords : List SyncRecord :=
  [pendingRow 1 "images" "a.jpg", downloadedRow 2 "images" "b.jpg", pendingRow 3 "videos" "a.jpg"]

/-- Every download succeeds, at time 5. -/
def allSucceed : Nat → Nat → DownloadAttempt :=
  fun _ _ => { now := 5, copy := none, writeApplied := true }

/-- A download attempt that fails. -/
def failingAttempt : DownloadAttempt :=
  { now := 5, copy := some "unexpected EOF", writeApplied := true }


/-- The status an upload worker writes when it reaches its bookkeeping write. -/
def UploadAttempt.status (a : UploadAttempt) : Nat :=
  match a.upload with
  | some _ => statusFailed
  | none => statusCompleted

/-- The error text an upload worker writes when it reaches its bookkeeping
write. -/
def UploadAttempt.message (a : UploadAttempt) : String :=
  match a.upload with
  | some uploadErr => uploadErr
  | none => ""

/-- Two records waiting for upload. -/
def twoDownloaded : List SyncRecord :=
  [downloadedRow 1 "images" "a.jpg", downloadedRow 2 "images" "b.jpg"]

/-- The first worker's upload fails, every other upload succeeds; every session
is created. -/
def firstUploadFails : Nat → UploadAttempt :=
  fun idx =>
    { now := 6, sessionFails := false,
      upload := if idx = 0 then some "RequestTimeout" else none, writeApplied := true }


/-- Both tables, with three sync records already mapped. -/
def mappedDB : DB :=
  { containers := demoContainers, sync := threeRecords }

/-- The batch the upload driver polls from `twoDownloaded`. -/
def twoBatch : List (String × String) :=
  GetPendingS3Content twoDownloaded

/-- The sync table `twoDownloaded` with both staging files present. -/
def stagedWorld : World :=
  { sync := twoDownloaded, files := ["/m/a.jpg", "/m/b.jpg"] }

/-- The sync table `threeRecords` with an empty staging directory. -/
def freshWorld : World :=
  { sync := threeRecords, files := [] }


/-! ## The live reset of `database/main.go` -/

/-- The slice `liveContainerList` of `database/main.go` (the package `database`
has its own variable of that name, with two names). -/
def Database.liveContainerList : List String :=
  ["employees-data", "reports"]

/-- The function `ResetLiveContainer`: one `UPDATE containers SET status = 0
WHERE name = ?` for each name of the list of `database/main.go`. -/
def ResetLiveContainer (t : List Container) : List Container :=
  Database.liveContainerList.foldl (fun t live => updateContainerStatus 0 live t) t

/-- A containers table after some scans: rows with each of the five statuses. -/
def scannedContainers : List Container :=
  [{ name := "employees-data", status := 100, created_at := 1 },
   { name := "reports", status := 404, created_at := 2 },
   { name := "images", status := 100, created_at := 3 },
   { name := "archive", status := 200, created_at := 4 },
   { name := "empty", status := 503, created_at := 5 },
   { name := "fresh", status := 0, created_at := 6 }]


/-! ## The end-to-end scenario -/

/-- The store at the start of the scenario: the container `images` pending and
no sync record. -/
def scenarioDB : DB :=
  { containers := [{ name := "images", status := 0, created_at := 1 }], sync := [] }

/-- Every upload succeeds, at time 9, with its session created. -/
def allUploadsSucceed : Nat → UploadAttempt :=
  fun _ => { now := 9, sessionFails := false, upload := none, writeApplied := true }

/-- The sync table after mapping `images` over the listing of `a.jpg` and
`b.xml`. -/
def scenarioMapped : List SyncRecord :=
  (traverseContainerWorker 7 "images" demoListing scenarioDB).db.sync

/-- The world after the download driver has drained `scenarioMapped` with
every copy succeeding; the staging directory starts empty. -/
def scenarioDownloaded : World :=
  match initiateDownload "/m/" allSucceed 3 0 { sync := scenarioMapped, files := [] } with
  | some r => r.2
  | none => { sync := scenarioMapped, files := [] }

/-- The run of one upload poll on `scenarioDownloaded` with every upload
succeeding. -/
def scenarioUploaded : UploadRun :=
  uploadPoll "/m/" allUploadsSucceed scenarioDownloaded


/-! ## Concrete inputs for the staging file names -/

/-- A blob name with the 1800 kbps quality tag. -/
def taggedBlob : String :=
  "v_H264_1800kbps_AAC_und_ch2_128kbps.mp4"

/-- Two records pending download with the same blob name in two containers,
one of them an `asset-` container. -/
def sameBlobTwice : List SyncRecord :=
  [pendingRow 1 "asset-1" taggedBlob, pendingRow 2 "images" taggedBlob]

/-- The world after the download driver has drained `sameBlobTwice` with every
copy succeeding; the staging directory starts empty. -/
def sameBlobDownloaded : World :=
  match initiateDownload "/m/" allSucceed 3 0 { sync := sameBlobTwice, files := [] } with
  | some r => r.2
  | none => { sync := sameBlobTwice, files := [] }

/-! ## `helpers/data_processing.go`: `CreateContainerMatrix` -/

def columnCapacity : Nat := 10
def tenGap : Nat := 10

/-- The Go slice expression `container[minRange:maxRange]`: `none` stands for
the run-time panic when a bound is out of range. -/
def sliceRange (container : List String) (minRange maxRange : Nat) : Option (List String) :=
  if minRange ≤ maxRange ∧ maxRange ≤ container.length then
    some ((container.drop minRange).take (maxRange - minRange))
  else none

/-- The body of the loop of `CreateContainerMatrix` for one row. The operand of
`math.Abs` is an integer difference, so `currentDifference` is its absolute
value. -/
def matrixRow (container : List String) (rowIdx : Nat) : Option (List String) :=
  let containerLength := container.length
  let currentDifference :=
    ((containerLength : Int) - ((rowIdx * columnCapacity : Nat) : Int)).natAbs
  let minRange := rowIdx * tenGap
  let maxRange :=
    if currentDifference ≥ columnCapacity then (1 + rowIdx) * columnCapacity
    else minRange + currentDifference
  sliceRange container minRange maxRange

/-- The loop `for rowIdx := 0; rowIdx < rowsCapacity; rowIdx++`, with the
number of rows still to fill as first argument. -/
def fillMatrix (container : List String) : Nat → Nat → Option (List (List String))
  | 0, _ => some []
  | k + 1, rowIdx =>
    match matrixRow container rowIdx with
    | none => none
    | some row => (fillMatrix container k (rowIdx + 1)).map (fun rows => row :: rows)

/-- The function `CreateContainerMatrix`. `rowsCapacity` is
`int(math.Ceil(float64(containerLength) / tenGap))`, which for a length a
`float64` holds exactly is the integer ceiling of the length over 10. -/
def CreateContainerMatrix (container : List String) : Option (List (List String)) :=
  let containerLength := container.length
  let rowsCapacity := (containerLength + (tenGap - 1)) / tenGap
  fillMatrix container rowsCapacity 0

/-- Twenty-three container names. -/
def twentyThree : List String :=
  (List.range 23).map (fun i => String.mk (List.replicate (i + 1) 'c'))


/-! ## Concrete inputs for `ProcessBlobName` -/

/-- A blob name that holds the 1800 kbps tag twice. -/
def doubleTagged : String :=
  "a_H264_1800kbps_AAC_und_ch2_128kbps" ++ "_H264_1800kbps_AAC_und_ch2_128kbps.mp4"

/-- A blob name that holds the 1800 kbps tag in the middle and ends with
`1800kbps_AAC_und_ch2_128kbps.mp4` without `_H264_` before it. -/
def tagInside : String :=
  "a_H264_1800kbps_AAC_und_ch2_128kbps_b1800kbps_AAC_und_ch2_128kbps.mp4"


/-! ## Sequences of driver operations -/

/-- One operation of a transfer driver: one poll with its batch of workers,
given what the workers get from outside. -/
inductive DriverOp where
  | download (attempt : Nat → DownloadAttempt)
  | upload (attempt : Nat → UploadAttempt)

/-- The world a run of upload workers leaves. -/
def UploadRun.world : UploadRun → World
  | UploadRun.running w _ => w
  | UploadRun.exited w => w

/-- The effect of one driver operation on the sync table and the staging
directory: one round of `initiateDownload` or of `initiateUpload`. -/
def driverStep (mediaFolder : String) (op : DriverOp) (w : World) : World :=
  match op with
  | DriverOp.download attempt =>
    (downloadBatch mediaFolder attempt (buildQueue (GetPendingAzureContent w.sync)) 0
      (GetPendingAzureContent w.sync) (w, buildQueue (GetPendingAzureContent w.sync))).1
  | DriverOp.upload attempt => (uploadPoll mediaFolder attempt w).world

/-- A sequence of driver operations, in order. -/
def driverRun (mediaFolder : String) (ops : List DriverOp) (w : World) : World :=
  ops.foldl (fun w op => driverStep mediaFolder op w) w

/-- A record whose download failed and a later record for the same
(container, blob) pair still pending download. -/
def failedAndPending : List SyncRecord :=
  [{ id := 1, container := "images", blob := "a.jpg", azure_status := 2,
     azure_error := some "unexpected EOF", s3_status := 0, s3_error := none, created_at := 1,
     updated_at := some 2 },
   pendingRow 2 "images" "a.jpg"]

/-- Three records with different pairs: one whose download failed, one whose
upload failed, one pending download. -/
def failedRecords : List SyncRecord :=
  [{ id := 1, container := "images", blob := "a.jpg", azure_status := 2,
     azure_error := some "unexpected EOF", s3_status := 0, s3_error := none, created_at := 1,
     updated_at := some 2 },
   { id := 2, container := "images", blob := "b.jpg", azure_status := 1,
     azure_error := some "", s3_status := 2, s3_error := some "RequestTimeout",
     created_at := 1, updated_at := some 3 },
   pendingRow 3 "images" "c.jpg"]

/-- A download round and an upload round, every transfer succeeding. -/
def twoRounds : List DriverOp :=
  [DriverOp.download (allSucceed 0), DriverOp.upload allUploadsSucceed]


/-- A download attempt whose copy succeeds and whose bookkeeping write is not
executed. -/
def lostWriteAttempt : DownloadAttempt :=
  { now := 5, copy := none, writeApplied := false }

/-- A download attempt whose copy fails with an error of empty text. -/
def emptyTextAttempt : DownloadAttempt :=
  { now := 5, copy := some "", writeApplied := true }

/-- Every upload fails with the text "RequestTimeout" and no bookkeeping write
is executed. -/
def failedUploadLostWrite : Nat → UploadAttempt :=
  fun _ =>
    { now := 6, sessionFails := false, upload := some "RequestTimeout", writeApplied := false }

/-- Every upload fails, the first worker's with the text "RequestTimeout", the
others' with "SlowDown"; every bookkeeping write is executed. -/
def bothUploadsFail : Nat → UploadAttempt :=
  fun idx =>
    { now := 6, sessionFails := false,
      upload := if idx = 0 then some "RequestTimeout" else some "SlowDown",
      writeApplied := true }

/-- Two records waiting for upload with the same (container, blob) pair. -/
def twinDownloaded : List SyncRecord :=
  [downloadedRow 1 "images" "a.jpg", downloadedRow 2 "images" "a.jpg"]


/-- A containers table with pending rows for three names, two of them live. -/
def liveDB : DB :=
  { containers :=
      [{ name := "employees-data", status := 0, created_at := 1 },
       { name := "images", status := 0, created_at := 2 },
       { name := "archive", status := 0, created_at := 3 }],
    sync := [] }


end SyncCloudStorage

namespace SyncCloudStorage

/-! ## The blob mapper: status after a scan -/

theorem mapBlob_containers (now : Nat) (c : String) (s : Scan) (b : String) :
    (mapBlob now c s b).db.containers = s.db.containers := by
  unfold mapBlob
  split_ifs <;> rfl

theorem mapBlob_fileCount (now : Nat) (c : String) (s : Scan) (b : String) :
    (mapBlob now c s b).fileCount = s.fileCount + (if eligible b then 1 else 0) := by
  unfold mapBlob eligible
  split_ifs <;> simp_all

theorem mapSegment_containers (now : Nat) (c : String) (bs : List String) (s : Scan) :
    (mapSegment now c s bs).db.containers = s.db.containers := by
  induction bs generalizing s with
  | nil => rfl
  | cons b bs ih =>
    simp only [mapSegment, List.foldl_cons] at ih ⊢
    rw [ih, mapBlob_containers]

theorem mapSegment_fileCount (now : Nat) (c : String) (bs : List String) (s : Scan) :
    (mapSegment now c s bs).fileCount = s.fileCount + (bs.filter eligible).length := by
  induction bs generalizing s with
  | nil => simp [mapSegment]
  | cons b bs ih =>
    simp only [mapSegment, List.foldl_cons] at ih ⊢
    rw [ih, mapBlob_fileCount]
    by_cases hb : eligible b = true <;> simp [List.filter_cons, hb]; omega

theorem traverseLoop_faultFree (now : Nat) (c : String) (l : Listing) (s : Scan)
    (h : l.faultFree = true) :
    (traverseLoop now c l s).ending = Ending.finished ∧
    (traverseLoop now c l s).db.containers =
      updateContainerStatus (scanStatus c (s.fileCount + (l.blobs.filter eligible).length)) c
        s.db.containers := by
  induction l generalizing s with
  | last bs =>
    simp [traverseLoop, finishContainer, Listing.blobs, scanStatus, mapSegment_fileCount,
      mapSegment_containers]
  | more bs rest ih =>
    have h1 : rest.faultFree = true := by simpa [Listing.faultFree] using h
    have := ih (mapSegment now c s bs) h1
    simp only [traverseLoop, Listing.blobs, List.filter_append, List.length_append]
    rw [mapSegment_fileCount, mapSegment_containers, Nat.add_assoc] at this
    exact this
  | fault f => simp [Listing.faultFree] at h

theorem updateContainerStatus_names (st : Nat) (c : String) (t : List Container) :
    (updateContainerStatus st c t).map Container.name = t.map Container.name := by
  induction t with
  | nil => rfl
  | cons r t ih =>
    simp only [updateContainerStatus, List.map_cons] at ih ⊢
    rw [ih]
    by_cases h : r.name = c <;> simp [h]

theorem updateContainerStatus_status (st : Nat) (c : String) (t : List Container)
    (r : Container) (hr : r ∈ updateContainerStatus st c t) (hn : r.name = c) :
    r.status = st := by
  simp only [updateContainerStatus, List.mem_map] at hr
  obtain ⟨r0, _, rfl⟩ := hr
  by_cases h : r0.name = c
  · simp [h]
  · simp [h] at hn

theorem filter_eligible_length_eq_zero (bs : List String) :
    (bs.filter eligible).length = 0 ↔ ∀ b ∈ bs, eligible b = false := by
  simp [List.filter_eq_nil_iff]

/-- C1 (the code at the failing inputs): when the first `ListBlobs` call reports
container-not-found, the status the worker leaves for the container is 503, not
404; when the fault comes after a segment with one eligible blob, the status
left is 100 for the live container `images` and 200 for `archive`. -/
theorem notFound_status_overwritten :
    statusOf (traverseContainerWorker 7 "images" notFoundAtOnce demoDB).db.containers "images"
      = some 503 ∧
    statusOf (traverseContainerWorker 7 "images" notFoundLater demoDB).db.containers "images"
      = some 100 ∧
    statusOf (traverseContainerWorker 7 "archive" notFoundLater demoDB).db.containers "archive"
      = some 200 ∧
    (traverseContainerWorker 7 "images" notFoundAtOnce demoDB).ending = Ending.finished := by
  decide

theorem status_after_mapping_aux (now : Nat) (containerName : String) (listing : Listing)
    (db : DB) (h : listing.faultFree = true) :
    (traverseContainerWorker now containerName listing db).ending = Ending.finished ∧
    (traverseContainerWorker now containerName listing db).db.containers
      = updateContainerStatus
          (scanStatus containerName (listing.blobs.filter eligible).length) containerName
          db.containers := by
  obtain ⟨h1, h2⟩ := traverseLoop_faultFree now containerName listing
    { fileCount := 0, db := db } h
  simp only [Nat.zero_add] at h2
  exact ⟨h1, h2⟩

theorem isValidExtension_iff (l : List String) (e : String) :
    isValidExtension l e = true ↔ e ∉ l := by
  induction l with
  | nil => simp [isValidExtension]
  | cons x l ih =>
    by_cases hx : x = e
    · simp [isValidExtension, hx]
    · have hx2 : ¬ e = x := fun h => hx h.symm
      simp [isValidExtension, hx, hx2, ih]

theorem isLiveContainer_iff (l : List String) (n : String) :
    isLiveContainer l n = true ↔ n ∈ l := by
  induction l with
  | nil => simp [isLiveContainer]
  | cons x l ih =>
    by_cases hx : x = n
    · simp [isLiveContainer, hx]
    · have hx2 : ¬ n = x := fun h => hx h.symm
      simp [isLiveContainer, hx, hx2, ih]

theorem live_names (n : String) :
    n ∈ liveContainerList ↔
      n ∈ ["employees-data", "employees-indentity", "videos", "images", "reports", ""] := by
  simp [liveContainerList, List.replicate]

theorem extScan_no_dot (s acc : List Char) (h : '.' ∉ s) : extScan s acc = [] := by
  induction s generalizing acc with
  | nil => rfl
  | cons c s ih =>
    rw [List.mem_cons, not_or] at h
    have hc : ¬ c = '.' := fun e => h.1 e.symm
    unfold extScan
    by_cases hs : c = '/'
    · simp [hs]
    · simp only [hs, hc, if_false]
      exact ih _ h.2

theorem extScan_suffix (e rest acc : List Char) (hd : '.' ∉ e) (hs : '/' ∉ e) :
    extScan (e ++ '.' :: rest) acc = '.' :: (e.reverse ++ acc) := by
  induction e generalizing acc with
  | nil => simp [extScan]
  | cons c e ih =>
    rw [List.mem_cons, not_or] at hd hs
    have h1 : ¬ c = '.' := fun h => hd.1 h.symm
    have h2 : ¬ c = '/' := fun h => hs.1 h.symm
    rw [List.cons_append]
    unfold extScan
    simp only [h1, h2, if_false]
    rw [ih _ hd.2 hs.2]
    simp

theorem Ext_of_suffix (stem ext : List Char) (hd : '.' ∉ ext) (hs : '/' ∉ ext) :
    Ext (String.mk (stem ++ '.' :: ext)) = String.mk ('.' :: ext) := by
  unfold Ext
  have hr : (stem ++ '.' :: ext).reverse = ext.reverse ++ '.' :: stem.reverse := by simp
  rw [hr, extScan_suffix _ _ _ (by simpa using hd) (by simpa using hs)]
  simp

theorem Ext_of_no_dot (dir base : List Char) (hd : '.' ∉ base) :
    Ext (String.mk base) = "" ∧ Ext (String.mk (dir ++ '/' :: base)) = "" := by
  unfold Ext
  refine ⟨?_, ?_⟩
  · rw [extScan_no_dot _ _ (by simpa using hd)]
  · have hr : (dir ++ '/' :: base).reverse = base.reverse ++ '/' :: dir.reverse := by simp
    have hgen : ∀ (e rest acc : List Char), '.' ∉ e → extScan (e ++ '/' :: rest) acc = [] := by
      intro e
      induction e with
      | nil => intro rest acc _; simp [extScan]
      | cons c e ih =>
        intro rest acc h
        rw [List.mem_cons, not_or] at h
        have h1 : ¬ c = '.' := fun e => h.1 e.symm
        rw [List.cons_append]
        unfold extScan
        by_cases h2 : c = '/'
        · simp [h2]
        · simp only [h1, h2, if_false]
          exact ih _ _ h.2
    rw [hr, hgen _ _ _ (by simpa using hd)]

/-- C2: when the listing completes without fault the worker returns, the rows
of the containers table keep their names and the rows of other containers are
unchanged, and every row with the container's name has status 503 when the
extension of every listed blob is one of `.xml`, `.ism`, `.ismc`; 100 when some
listed blob has another extension and the name is one of `employees-data`,
`employees-indentity`, `videos`, `images`, `reports` (or the empty name, the
value of the unused entries of the live array); and 200 when some listed blob
has another extension and the name is none of these. The extension is the
suffix from the last dot of the last path element, empty when that element has
no dot. -/
theorem status_after_mapping (now : Nat) (containerName : String) (listing : Listing)
    (db : DB) (h : listing.faultFree = true) :
    (traverseContainerWorker now containerName listing db).ending = Ending.finished ∧
    (traverseContainerWorker now containerName listing db).db.containers.map Container.name
      = db.containers.map Container.name ∧
    (∀ r ∈ db.containers, r.name ≠ containerName →
      r ∈ (traverseContainerWorker now containerName listing db).db.containers) ∧
    (∀ r ∈ (traverseContainerWorker now containerName listing db).db.containers,
      r.name = containerName →
      ((∀ b ∈ listing.blobs, Ext b ∈ [".xml", ".ism", ".ismc"]) → r.status = 503) ∧
      ((∃ b ∈ listing.blobs, Ext b ∉ [".xml", ".ism", ".ismc"]) →
        containerName ∈
          ["employees-data", "employees-indentity", "videos", "images", "reports", ""] →
        r.status = 100) ∧
      ((∃ b ∈ listing.blobs, Ext b ∉ [".xml", ".ism", ".ismc"]) →
        containerName ∉
          ["employees-data", "employees-indentity", "videos", "images", "reports", ""] →
        r.status = 200)) ∧
    (∀ stem ext : List Char, '.' ∉ ext → '/' ∉ ext →
      Ext (String.mk (stem ++ '.' :: ext)) = String.mk ('.' :: ext)) ∧
    (∀ dir base : List Char, '.' ∉ base →
      Ext (String.mk base) = "" ∧ Ext (String.mk (dir ++ '/' :: base)) = "") := by
  obtain ⟨h1, h2⟩ := status_after_mapping_aux now containerName listing db h
  have hel : ∀ b, eligible b = true ↔ Ext b ∉ [".xml", ".ism", ".ismc"] := fun b =>
    isValidExtension_iff fileExceptionList (Ext b)
  have hlive : isLiveContainer liveContainerList containerName = true ↔ containerName ∈
      ["employees-data", "employees-indentity", "videos", "images", "reports", ""] :=
    (isLiveContainer_iff _ _).trans (live_names containerName)
  refine ⟨h1, ?_, ?_, ?_, Ext_of_suffix, Ext_of_no_dot⟩
  · rw [h2, updateContainerStatus_names]
  · intro r hr hn
    rw [h2]
    unfold updateContainerStatus
    rw [List.mem_map]
    exact ⟨r, hr, by simp [hn]⟩
  · intro r hr hn
    rw [h2] at hr
    have hs := updateContainerStatus_status _ _ _ r hr hn
    have hcount : (∃ b ∈ listing.blobs, Ext b ∉ [".xml", ".ism", ".ismc"]) →
        (listing.blobs.filter eligible).length ≠ 0 := by
      intro hex h0
      obtain ⟨b, hb, he⟩ := hex
      have := (filter_eligible_length_eq_zero listing.blobs).1 h0 b hb
      rw [(hel b).2 he] at this
      exact Bool.noConfusion this
    refine ⟨?_, ?_, ?_⟩
    · intro hall
      have h0 : (listing.blobs.filter eligible).length = 0 := by
        apply (filter_eligible_length_eq_zero listing.blobs).2
        intro b hb
        by_contra hne
        exact (hel b).1 (by simpa using hne) (hall b hb)
      rw [hs, h0]; rfl
    · intro hex hl
      rw [hs]
      simp [scanStatus, hcount hex, hlive.2 hl, liveContainer]
    · intro hex hl
      have hnl : isLiveContainer liveContainerList containerName = false := by
        by_contra hne
        exact hl (hlive.1 (by simpa using hne))
      rw [hs]
      simp [scanStatus, hcount hex, hnl, traverseCompleted]

/-- C2 at concrete inputs: the live container `employees-data` with a listing
of `a.jpg` and `b.xml` ends 100, `archive` with the same listing ends 200, and
`images` with a listing of `d.ismc` alone ends 503. -/
theorem status_after_mapping_witness :
    demoListing.faultFree = true ∧
    statusOf (traverseContainerWorker 7 "employees-data" demoListing
      liveDB).db.containers "employees-data" = some 100 ∧
    statusOf (traverseContainerWorker 7 "archive" demoListing liveDB).db.containers "archive"
      = some 200 ∧
    statusOf (traverseContainerWorker 7 "images" (Listing.last ["d.ismc"])
      liveDB).db.containers "images" = some 503 ∧
    (∀ r ∈ (traverseContainerWorker 7 "images" demoListing demoDB).db.containers,
      r.name = "images" →
      ((∀ b ∈ demoListing.blobs, Ext b ∈ [".xml", ".ism", ".ismc"]) → r.status = 503) ∧
      ((∃ b ∈ demoListing.blobs, Ext b ∉ [".xml", ".ism", ".ismc"]) →
        "images" ∈
          ["employees-data", "employees-indentity", "videos", "images", "reports", ""] →
        r.status = 100) ∧
      ((∃ b ∈ demoListing.blobs, Ext b ∉ [".xml", ".ism", ".ismc"]) →
        "images" ∉
          ["employees-data", "employees-indentity", "videos", "images", "reports", ""] →
        r.status = 200)) :=
  ⟨by decide, by decide, by decide, by decide,
   (status_after_mapping 7 "images" demoListing demoDB (by decide)).2.2.2.1⟩

/-! ## Idempotent discovery: `InsertInContainer` -/

theorem InsertInContainer_of_mem (now : Nat) (name : String) (t : List Container)
    (h : ∃ r ∈ t, r.name = name) : InsertInContainer now name t = t := by
  have : t.any (fun r => r.name == name) = true := by
    simpa [List.any_eq_true] using h
  simp [InsertInContainer, this]

theorem InsertInContainer_of_not_mem (now : Nat) (name : String) (t : List Container)
    (h : ¬ ∃ r ∈ t, r.name = name) :
    InsertInContainer now name t = t ++ [{ name := name, status := 0, created_at := now }] := by
  have : ¬ t.any (fun r => r.name == name) = true := by
    simpa [List.any_eq_true] using h
  simp [InsertInContainer, this]

theorem InsertInContainer_mem (now : Nat) (name : String) (t : List Container) :
    ∃ r ∈ InsertInContainer now name t, r.name = name := by
  by_cases h : ∃ r ∈ t, r.name = name
  · rw [InsertInContainer_of_mem now name t h]; exact h
  · rw [InsertInContainer_of_not_mem now name t h]
    exact ⟨{ name := name, status := 0, created_at := now }, by simp, rfl⟩

theorem InsertInContainer_nodup (now : Nat) (name : String) (t : List Container)
    (hu : (t.map Container.name).Nodup) :
    ((InsertInContainer now name t).map Container.name).Nodup := by
  by_cases h : ∃ r ∈ t, r.name = name
  · rw [InsertInContainer_of_mem now name t h]; exact hu
  · rw [InsertInContainer_of_not_mem now name t h]
    simp only [List.map_append, List.map_cons, List.map_nil]
    refine List.Nodup.append hu (List.nodup_singleton _) ?_
    rw [List.disjoint_singleton]
    intro hm
    rw [List.mem_map] at hm
    exact h hm

theorem rows_named_length (name : String) (t : List Container) :
    (t.filter (fun r => r.name == name)).length = (t.map Container.name).count name := by
  induction t with
  | nil => rfl
  | cons r t ih =>
    by_cases h : r.name = name
    · simp [List.filter_cons, h, ih]
    · have h2 : ¬ (r.name == name) = true := by simpa using h
      simp [List.filter_cons, h, ih, List.count_cons]

/-- C3: on a containers table with at most one row per name (the `UNIQUE`
constraint), two calls of `InsertInContainer` with the same name leave exactly
one row with that name; a call on a table that already has a row with the name
returns the table unchanged (every row, with its status and `created_at`); a
call on a table without such a row appends one row with status 0; and the
second of two calls changes nothing. -/
theorem InsertInContainer_idempotent (now1 now2 : Nat) (name : String) (t : List Container)
    (hu : (t.map Container.name).Nodup) :
    ((InsertInContainer now2 name (InsertInContainer now1 name t)).filter
      (fun r => r.name == name)).length = 1 ∧
    ((∃ r ∈ t, r.name = name) → InsertInContainer now1 name t = t) ∧
    ((¬ ∃ r ∈ t, r.name = name) →
      InsertInContainer now1 name t = t ++ [{ name := name, status := 0, created_at := now1 }]) ∧
    InsertInContainer now2 name (InsertInContainer now1 name t) = InsertInContainer now1 name t := by
  have h2 : InsertInContainer now2 name (InsertInContainer now1 name t)
      = InsertInContainer now1 name t :=
    InsertInContainer_of_mem now2 name _ (InsertInContainer_mem now1 name t)
  refine ⟨?_, InsertInContainer_of_mem now1 name t, InsertInContainer_of_not_mem now1 name t, h2⟩
  rw [h2, rows_named_length]
  apply List.count_eq_one_of_mem (InsertInContainer_nodup now1 name t hu)
  obtain ⟨r, hr, hn⟩ := InsertInContainer_mem now1 name t
  exact List.mem_map.2 ⟨r, hr, hn⟩

/-- C3 at a concrete input: inserting `images` twice into a table that already
holds it, and `videos` twice into a table that does not. -/
theorem InsertInContainer_idempotent_witness :
    (demoContainers.map Container.name).Nodup ∧
    (((InsertInContainer 9 "videos" (InsertInContainer 8 "videos" demoContainers)).filter
      (fun r => r.name == "videos")).length = 1 ∧
    ((∃ r ∈ demoContainers, r.name = "videos") →
      InsertInContainer 8 "videos" demoContainers = demoContainers) ∧
    ((¬ ∃ r ∈ demoContainers, r.name = "videos") →
      InsertInContainer 8 "videos" demoContainers
        = demoContainers ++ [{ name := "videos", status := 0, created_at := 8 }]) ∧
    InsertInContainer 9 "videos" (InsertInContainer 8 "videos" demoContainers)
      = InsertInContainer 8 "videos" demoContainers) :=
  ⟨by decide, InsertInContainer_idempotent 8 9 "videos" demoContainers (by decide)⟩

/-! ## The clean mode and the dispatch of `main` -/

/-- C9 (the code at every store): after the clean branch of `main`, which only
calls `CleanUp`, neither table exists; in particular the two tables of
`demoStore` are gone and not recreated, and only `BuildTable` (run by the sync
branch) brings them back, empty. -/
theorem clean_leaves_no_table (s : Store) :
    (CleanUp s).1 = true ∧
    (cleanBranch s).containers = none ∧ (cleanBranch s).sync = none ∧
    cleanBranch demoStore ≠ { containers := some [], sync := some [] } ∧
    (BuildTable (cleanBranch s)).2 = { containers := some [], sync := some [] } := by
  refine ⟨rfl, rfl, rfl, by decide, rfl⟩

/-- C10 (counterexample): with both `sync` and `clean` set the number of flags
set is 2, yet the dispatch does not report the invalid-flag error: it runs the
sync branch. -/
theorem dispatch_two_flags_runs_sync :
    syncAndClean.count = 2 ∧ syncAndClean.count ≠ 1 ∧
    dispatch syncAndClean = Branch.sync ∧ dispatch syncAndClean ≠ Branch.invalidFlag := by
  decide

/-- C10 (amended): the dispatch reports the invalid-flag error exactly when no
mode flag is set; otherwise it runs one branch, the first flag set in the order
sync, clean, upload, download, reset-live; so when exactly one flag is set,
exactly that mode runs. -/
theorem dispatch_first_flag (f : Flags) :
    (dispatch f = Branch.invalidFlag ↔ f.count = 0) ∧
    (f.syncFlag = true → dispatch f = Branch.sync) ∧
    (f.syncFlag = false → f.cleanFlag = true → dispatch f = Branch.clean) ∧
    (f.syncFlag = false → f.cleanFlag = false → f.uploadFlag = true →
      dispatch f = Branch.upload) ∧
    (f.syncFlag = false → f.cleanFlag = false → f.uploadFlag = false →
      f.downloadFlag = true → dispatch f = Branch.download) ∧
    (f.syncFlag = false → f.cleanFlag = false → f.uploadFlag = false →
      f.downloadFlag = false → f.resetLiveContainerFlag = true →
      dispatch f = Branch.resetLive) ∧
    (f.count = 1 →
      (f.syncFlag = true → dispatch f = Branch.sync) ∧
      (f.cleanFlag = true → dispatch f = Branch.clean) ∧
      (f.uploadFlag = true → dispatch f = Branch.upload) ∧
      (f.downloadFlag = true → dispatch f = Branch.download) ∧
      (f.resetLiveContainerFlag = true → dispatch f = Branch.resetLive)) := by
  obtain ⟨a, b, c, d, e⟩ := f
  cases a <;> cases b <;> cases c <;> cases d <;> cases e <;>
    simp [dispatch, Flags.count, Bool.toNat]

/-- C10 (amended) at a concrete input: only `upload` set. -/
theorem dispatch_first_flag_witness :
    onlyUpload.count = 1 ∧ dispatch onlyUpload = Branch.upload :=
  ⟨by decide, ((dispatch_first_flag onlyUpload).2.2.2.2.2.2 (by decide)).2.2.1 (by decide)⟩

/-! ## Idempotent mapping: at most one record per (container, blob) -/

theorem countSync_eq_zero (c b : String) (t : List SyncRecord) :
    countSync c b t = 0 ↔ (c, b) ∉ t.map SyncRecord.key := by
  simp only [countSync, List.length_eq_zero, List.filter_eq_nil_iff, List.mem_map, not_exists,
    not_and, SyncRecord.key, Prod.mk.injEq, Bool.and_eq_true, beq_iff_eq]

theorem insertSync_keys (now : Nat) (c b : String) (t : List SyncRecord) :
    (insertSync now c b t).map SyncRecord.key = t.map SyncRecord.key ++ [(c, b)] := by
  simp [insertSync, SyncRecord.key]

theorem mapBlob_sync_covered (now : Nat) (c : String) (s : Scan) (b : String)
    (h : eligible b = true → (c, b) ∈ s.db.sync.map SyncRecord.key) :
    (mapBlob now c s b).db.sync = s.db.sync := by
  unfold mapBlob
  by_cases he : isValidExtension fileExceptionList (Ext b) = true
  · have hc : ¬ countSync c b s.db.sync = 0 := by
      rw [countSync_eq_zero]; exact not_not.2 (h he)
    simp [he, hc]
  · simp [he]

theorem mapBlob_sync_new (now : Nat) (c : String) (s : Scan) (b : String)
    (he : eligible b = true) (h : (c, b) ∉ s.db.sync.map SyncRecord.key) :
    (mapBlob now c s b).db.sync = insertSync now c b s.db.sync := by
  have hc : countSync c b s.db.sync = 0 := (countSync_eq_zero c b s.db.sync).2 h
  have he2 : isValidExtension fileExceptionList (Ext b) = true := he
  simp [mapBlob, he2, hc]

theorem mapBlob_unique (now : Nat) (c : String) (s : Scan) (b : String)
    (hu : uniqueKeys s.db.sync) : uniqueKeys (mapBlob now c s b).db.sync := by
  by_cases h : eligible b = true ∧ (c, b) ∉ s.db.sync.map SyncRecord.key
  · rw [mapBlob_sync_new now c s b h.1 h.2]
    unfold uniqueKeys at hu ⊢
    rw [insertSync_keys]
    refine List.Nodup.append hu (List.nodup_singleton _) ?_
    rw [List.disjoint_singleton]
    exact h.2
  · rw [mapBlob_sync_covered now c s b]
    · exact hu
    · intro he
      by_contra hn
      exact h ⟨he, hn⟩

theorem mapBlob_keys_mono (now : Nat) (c : String) (s : Scan) (b : String)
    (k : String × String) (hk : k ∈ s.db.sync.map SyncRecord.key) :
    k ∈ (mapBlob now c s b).db.sync.map SyncRecord.key := by
  by_cases h : eligible b = true ∧ (c, b) ∉ s.db.sync.map SyncRecord.key
  · rw [mapBlob_sync_new now c s b h.1 h.2, insertSync_keys]
    exact List.mem_append_left _ hk
  · rw [mapBlob_sync_covered now c s b]
    · exact hk
    · intro he
      by_contra hn
      exact h ⟨he, hn⟩

theorem mapBlob_covers (now : Nat) (c : String) (s : Scan) (b : String)
    (he : eligible b = true) : (c, b) ∈ (mapBlob now c s b).db.sync.map SyncRecord.key := by
  by_cases h : (c, b) ∈ s.db.sync.map SyncRecord.key
  · exact mapBlob_keys_mono now c s b _ h
  · rw [mapBlob_sync_new now c s b he h, insertSync_keys]
    simp

theorem mapSegment_unique (now : Nat) (c : String) (bs : List String) (s : Scan)
    (hu : uniqueKeys s.db.sync) : uniqueKeys (mapSegment now c s bs).db.sync := by
  induction bs generalizing s with
  | nil => exact hu
  | cons b bs ih =>
    simp only [mapSegment, List.foldl_cons] at ih ⊢
    exact ih _ (mapBlob_unique now c s b hu)

theorem mapSegment_keys_mono (now : Nat) (c : String) (bs : List String) (s : Scan)
    (k : String × String) (hk : k ∈ s.db.sync.map SyncRecord.key) :
    k ∈ (mapSegment now c s bs).db.sync.map SyncRecord.key := by
  induction bs generalizing s with
  | nil => exact hk
  | cons b bs ih =>
    simp only [mapSegment, List.foldl_cons] at ih ⊢
    exact ih _ (mapBlob_keys_mono now c s b k hk)

theorem mapSegment_covers (now : Nat) (c : String) (bs : List String) (s : Scan) :
    ∀ b ∈ bs, eligible b = true →
      (c, b) ∈ (mapSegment now c s bs).db.sync.map SyncRecord.key := by
  induction bs generalizing s with
  | nil => intro b hb; simp at hb
  | cons b0 bs ih =>
    intro b hb he
    simp only [mapSegment, List.foldl_cons] at ih ⊢
    rcases List.mem_cons.1 hb with rfl | hb
    · exact mapSegment_keys_mono now c bs _ _ (mapBlob_covers now c s b he)
    · exact ih _ b hb he

theorem mapSegment_sync_covered (now : Nat) (c : String) (bs : List String) (s : Scan)
    (h : ∀ b ∈ bs, eligible b = true → (c, b) ∈ s.db.sync.map SyncRecord.key) :
    (mapSegment now c s bs).db.sync = s.db.sync := by
  induction bs generalizing s with
  | nil => rfl
  | cons b bs ih =>
    simp only [mapSegment, List.foldl_cons] at ih ⊢
    have h0 := mapBlob_sync_covered now c s b (h b (List.mem_cons_self _ _))
    rw [ih (mapBlob now c s b), h0]
    intro b1 hb1 he1
    rw [h0]
    exact h b1 (List.mem_cons_of_mem _ hb1) he1

theorem mapSegment_sync_congr (now : Nat) (c : String) (bs : List String) (s s2 : Scan)
    (h : s.db.sync = s2.db.sync) :
    (mapSegment now c s bs).db.sync = (mapSegment now c s2 bs).db.sync := by
  induction bs generalizing s s2 with
  | nil => exact h
  | cons b bs ih =>
    simp only [mapSegment, List.foldl_cons] at ih ⊢
    apply ih
    unfold mapBlob
    rw [h]
    split_ifs <;> simp [h]

theorem traverseLoop_sync (now : Nat) (c : String) (l : Listing) (s : Scan) :
    (traverseLoop now c l s).db.sync = (mapSegment now c s l.blobs).db.sync := by
  induction l generalizing s with
  | last bs => simp [traverseLoop, finishContainer, Listing.blobs]
  | more bs rest ih =>
    simp only [traverseLoop, Listing.blobs]
    rw [ih]
    simp [mapSegment, List.foldl_append]
  | fault f =>
    cases f <;> simp [traverseLoop, finishContainer, Listing.blobs, mapSegment]

/-- C4: on a sync table with at most one record per (container, blob) pair,
for every listing (with repeated blob names, with or without a fault) one run
of `traverseContainerWorker` leaves at most one record per pair, a second run
over the same listing leaves at most one record per pair, and the second run
leaves the sync table exactly as the first run left it. -/
theorem mapping_keeps_pairs_unique (now1 now2 : Nat) (containerName : String)
    (listing : Listing) (db : DB) (hu : uniqueKeys db.sync) :
    uniqueKeys (traverseContainerWorker now1 containerName listing db).db.sync ∧
    uniqueKeys (traverseContainerWorker now2 containerName listing
      (traverseContainerWorker now1 containerName listing db).db).db.sync ∧
    (traverseContainerWorker now2 containerName listing
      (traverseContainerWorker now1 containerName listing db).db).db.sync
      = (traverseContainerWorker now1 containerName listing db).db.sync := by
  have h1 : uniqueKeys (traverseContainerWorker now1 containerName listing db).db.sync := by
    unfold traverseContainerWorker
    rw [traverseLoop_sync]
    exact mapSegment_unique now1 containerName listing.blobs _ hu
  have h2 : (traverseContainerWorker now2 containerName listing
      (traverseContainerWorker now1 containerName listing db).db).db.sync
      = (traverseContainerWorker now1 containerName listing db).db.sync := by
    unfold traverseContainerWorker
    rw [traverseLoop_sync, mapSegment_sync_covered]
    intro b hb he
    show (containerName, b) ∈ (traverseLoop now1 containerName listing
      { fileCount := 0, db := db }).db.sync.map SyncRecord.key
    rw [traverseLoop_sync]
    exact mapSegment_covers now1 containerName listing.blobs _ b hb he
  exact ⟨h1, by rw [h2]; exact h1, h2⟩

/-- C4 at a concrete input: the live container `images` mapped twice over a
listing that repeats `a.jpg`, on a table that already holds `a.jpg`. -/
theorem mapping_keeps_pairs_unique_witness :
    uniqueKeys mappedDB.sync ∧
    (uniqueKeys (traverseContainerWorker 7 "images" repeatingListing mappedDB).db.sync ∧
    uniqueKeys (traverseContainerWorker 8 "images" repeatingListing
      (traverseContainerWorker 7 "images" repeatingListing mappedDB).db).db.sync ∧
    (traverseContainerWorker 8 "images" repeatingListing
      (traverseContainerWorker 7 "images" repeatingListing mappedDB).db).db.sync
      = (traverseContainerWorker 7 "images" repeatingListing mappedDB).db.sync) :=
  ⟨by unfold uniqueKeys; decide,
   mapping_keeps_pairs_unique 7 8 "images" repeatingListing mappedDB
     (by unfold uniqueKeys; decide)⟩

/-! ## The upload poll: `GetPendingS3Content` -/

theorem newerFirst_sorted (l : List SyncRecord) :
    (l.insertionSort (fun a b => b.id ≤ a.id)).Pairwise (fun a b => b.id ≤ a.id) := by
  haveI : IsTotal SyncRecord (fun a b => b.id ≤ a.id) := ⟨fun a b => Nat.le_total b.id a.id⟩
  haveI : IsTrans SyncRecord (fun a b => b.id ≤ a.id) :=
    ⟨fun _ _ _ h1 h2 => Nat.le_trans h2 h1⟩
  exact List.sorted_insertionSort (fun a b : SyncRecord => b.id ≤ a.id) l

theorem mem_pendingS3Rows (t : List SyncRecord) (r : SyncRecord) (h : r ∈ pendingS3Rows t) :
    r ∈ t ∧ r.azure_status = 1 ∧ r.s3_status = 0 := by
  have h1 := List.mem_of_mem_take h
  have h2 := (List.perm_insertionSort (fun a b : SyncRecord => b.id ≤ a.id) _).subset h1
  simpa using h2

theorem pendingS3Rows_left_out (t : List SyncRecord) (r : SyncRecord) (hr : r ∈ t)
    (ha : r.azure_status = 1) (hs : r.s3_status = 0) (hn : r ∉ pendingS3Rows t) :
    ∀ s ∈ pendingS3Rows t, r.id ≤ s.id := by
  intro s hsm
  have hsorted := newerFirst_sorted (t.filter (fun r => r.azure_status == 1 && r.s3_status == 0))
  rw [← List.take_append_drop 10
    ((t.filter (fun r => r.azure_status == 1 && r.s3_status == 0)).insertionSort
      (fun a b => b.id ≤ a.id)), List.pairwise_append] at hsorted
  have hmem : r ∈ (t.filter (fun r => r.azure_status == 1 && r.s3_status == 0)).insertionSort
      (fun a b => b.id ≤ a.id) := by
    apply (List.perm_insertionSort (fun a b : SyncRecord => b.id ≤ a.id) _).symm.subset
    simp [hr, ha, hs]
  rw [← List.take_append_drop 10
    ((t.filter (fun r => r.azure_status == 1 && r.s3_status == 0)).insertionSort
      (fun a b => b.id ≤ a.id)), List.mem_append] at hmem
  rcases hmem with hmem | hmem
  · exact absurd hmem hn
  · exact hsorted.2.2 s hsm r hmem

/-- C7: `GetPendingS3Content` returns the (container, blob) pairs of the rows
it selects; these are at most 10 (all the eligible rows when there are fewer),
each is a row of the table with `azure_status = 1` and `s3_status = 0`, they
are ordered by descending key `id` (the order of insertion, most recently
created first), and an eligible row that is left out has a key no larger than
that of any selected row. When `created_at` grows with `id`, the same holds
for `created_at`. -/
theorem pendingS3_selection (t : List SyncRecord) :
    GetPendingS3Content t = (pendingS3Rows t).map SyncRecord.key ∧
    (GetPendingS3Content t).length ≤ 10 ∧
    (GetPendingS3Content t).length
      = min 10 (t.filter (fun r => r.azure_status == 1 && r.s3_status == 0)).length ∧
    (∀ r ∈ pendingS3Rows t, r ∈ t ∧ r.azure_status = 1 ∧ r.s3_status = 0) ∧
    (pendingS3Rows t).Pairwise (fun a b => b.id ≤ a.id) ∧
    (∀ r ∈ t, r.azure_status = 1 → r.s3_status = 0 → r ∉ pendingS3Rows t →
      ∀ s ∈ pendingS3Rows t, r.id ≤ s.id) ∧
    ((∀ a ∈ t, ∀ b ∈ t, a.id ≤ b.id → a.created_at ≤ b.created_at) →
      (pendingS3Rows t).Pairwise (fun a b => b.created_at ≤ a.created_at) ∧
      (∀ r ∈ t, r.azure_status = 1 → r.s3_status = 0 → r ∉ pendingS3Rows t →
        ∀ s ∈ pendingS3Rows t, r.created_at ≤ s.created_at)) := by
  have hsorted : (pendingS3Rows t).Pairwise (fun a b => b.id ≤ a.id) :=
    (newerFirst_sorted _).sublist (List.take_sublist _ _)
  have hlen : (GetPendingS3Content t).length
      = min 10 (t.filter (fun r => r.azure_status == 1 && r.s3_status == 0)).length := by
    simp [GetPendingS3Content, pendingS3Rows, List.length_take, List.length_insertionSort]
  refine ⟨rfl, ?_, hlen, mem_pendingS3Rows t, hsorted, ?_, ?_⟩
  · rw [hlen]; exact Nat.min_le_left _ _
  · intro r hr ha hs hn
    exact pendingS3Rows_left_out t r hr ha hs hn
  · intro hmono
    refine ⟨?_, ?_⟩
    · refine List.Pairwise.imp_of_mem ?_ hsorted
      intro a b ha hb hab
      exact hmono b (mem_pendingS3Rows t b hb).1 a (mem_pendingS3Rows t a ha).1 hab
    · intro r hr ha hs hn s hsm
      exact hmono r hr s (mem_pendingS3Rows t s hsm).1
        (pendingS3Rows_left_out t r hr ha hs hn s hsm)

/-- C7 at a concrete input: the table `twoDownloaded`, whose two records are
both eligible. -/
theorem pendingS3_selection_witness :
    GetPendingS3Content twoDownloaded = [("images", "b.jpg"), ("images", "a.jpg")] ∧
    (GetPendingS3Content twoDownloaded).length ≤ 10 ∧
    (∀ r ∈ pendingS3Rows twoDownloaded,
      r ∈ twoDownloaded ∧ r.azure_status = 1 ∧ r.s3_status = 0) ∧
    (pendingS3Rows twoDownloaded).Pairwise (fun a b => b.id ≤ a.id) :=
  ⟨by decide, (pendingS3_selection twoDownloaded).2.1,
   (pendingS3_selection twoDownloaded).2.2.2.1, (pendingS3_selection twoDownloaded).2.2.2.2.1⟩

/-! ## Transfer bookkeeping: the download worker -/

theorem SetAzureFlag_ids (applied : Bool) (now : Nat) (c b : String) (st : Nat) (msg : String)
    (t : List SyncRecord) :
    (SetAzureFlag applied now c b st msg t).map (fun r => (r.id, r.key))
      = t.map (fun r => (r.id, r.key)) := by
  cases applied with
  | false => rfl
  | true =>
    induction t with
    | nil => rfl
    | cons r t ih =>
      simp only [SetAzureFlag, if_true, List.map_cons] at ih ⊢
      rw [ih]
      by_cases h : r.container = c ∧ r.blob = b <;> simp [h, SyncRecord.key]

theorem SetAzureFlag_matching (now : Nat) (c b : String) (st : Nat) (msg : String)
    (t : List SyncRecord) (r : SyncRecord) (hr : r ∈ SetAzureFlag true now c b st msg t)
    (hk : r.key = (c, b)) : r.azure_status = st ∧ r.azure_error = some msg := by
  simp only [SetAzureFlag, if_true, List.mem_map] at hr
  obtain ⟨r0, _, rfl⟩ := hr
  by_cases h : r0.container = c ∧ r0.blob = b
  · simp [h]
  · exfalso
    apply h
    simp [h, SyncRecord.key] at hk

theorem not_mem_removeFile (files : List String) (path : String) :
    path ∉ removeFile files path := by
  simp [removeFile]

theorem mem_createFile (files : List String) (path : String) :
    path ∈ createFile files path := by
  unfold createFile
  split_ifs with h
  · exact h
  · exact List.mem_cons_self _ _

/-- C6 (counterexample): the copy of `images/a.jpg` succeeds but the worker's
bookkeeping write is not executed (its errors are discarded): the record keeps
`azure_status = 0` and no error. And a copy that fails with an error whose text
is empty leaves the record with `azure_status = 2` and the empty error. -/
theorem download_write_lost :
    lostWriteAttempt.copy = none ∧
    (Azure.startWorker "/m/" lostWriteAttempt ("images", "a.jpg")
      (buildQueue (GetPendingAzureContent freshWorld.sync))
      (freshWorld, buildQueue (GetPendingAzureContent freshWorld.sync))).1.sync.map
      (fun r => (r.key, r.azure_status, r.azure_error))
      = [(("images", "a.jpg"), 0, none), (("images", "b.jpg"), 1, some ""),
         (("videos", "a.jpg"), 0, none)] ∧
    emptyTextAttempt.copy = some "" ∧
    (Azure.startWorker "/m/" emptyTextAttempt ("images", "a.jpg")
      (buildQueue (GetPendingAzureContent freshWorld.sync))
      (freshWorld, buildQueue (GetPendingAzureContent freshWorld.sync))).1.sync.map
      (fun r => (r.key, r.azure_status, r.azure_error))
      = [(("images", "a.jpg"), 2, some ""), (("images", "b.jpg"), 1, some ""),
         (("videos", "a.jpg"), 0, none)] := by
  decide

/-- C6 (amended): one run of the download worker keeps every row (same keys
`id` and pairs, in the same order). When its bookkeeping write is executed:
after a successful copy every row of the record's (container, blob) pair has
`azure_status = 1` and the empty error, and after a copy that fails with error
text `msg` every such row has `azure_status = 2` and the error `msg` (non-empty
when the text is). When the write is not executed the sync table is unchanged.
Whatever happens to the write, after a failed copy the file the worker created
for the record is not in the staging directory, after a successful copy it is,
and every other file of the staging directory stays. -/
theorem download_bookkeeping (mediaFolder : String) (a : DownloadAttempt)
    (syncContent : String × String) (seen : Queue) (w : World) (q : Queue) :
    (Azure.startWorker mediaFolder a syncContent seen (w, q)).1.sync.map
        (fun r => (r.id, r.key))
      = w.sync.map (fun r => (r.id, r.key)) ∧
    (a.writeApplied = true → a.copy = none →
      ∀ r ∈ (Azure.startWorker mediaFolder a syncContent seen (w, q)).1.sync,
        r.key = syncContent → r.azure_status = 1 ∧ r.azure_error = some "") ∧
    (a.writeApplied = true → ∀ msg, a.copy = some msg →
      ∀ r ∈ (Azure.startWorker mediaFolder a syncContent seen (w, q)).1.sync,
        r.key = syncContent →
        r.azure_status = 2 ∧ r.azure_error = some msg ∧
        (msg ≠ "" → r.azure_error ≠ some "" ∧ r.azure_error ≠ none)) ∧
    (a.writeApplied = false →
      (Azure.startWorker mediaFolder a syncContent seen (w, q)).1.sync = w.sync) ∧
    (∀ msg, a.copy = some msg →
      mediaFolder ++ seen.get syncContent.2
        ∉ (Azure.startWorker mediaFolder a syncContent seen (w, q)).1.files) ∧
    (a.copy = none →
      mediaFolder ++ seen.get syncContent.2
        ∈ (Azure.startWorker mediaFolder a syncContent seen (w, q)).1.files) ∧
    (∀ path ∈ w.files, path ≠ mediaFolder ++ seen.get syncContent.2 →
      path ∈ (Azure.startWorker mediaFolder a syncContent seen (w, q)).1.files) := by
  obtain ⟨c, b⟩ := syncContent
  refine ⟨?_, ?_, ?_, ?_, ?_, ?_, ?_⟩
  · unfold Azure.startWorker
    cases a.copy <;> simp only [] <;> exact SetAzureFlag_ids _ _ _ _ _ _ _
  · intro hw hc r hr hk
    simp only [Azure.startWorker, hc, hw] at hr
    exact SetAzureFlag_matching _ c b _ _ _ r hr hk
  · intro hw msg hc r hr hk
    simp only [Azure.startWorker, hc, hw] at hr
    obtain ⟨h1, h2⟩ := SetAzureFlag_matching _ c b _ _ _ r hr hk
    refine ⟨h1, h2, ?_⟩
    intro hne
    rw [h2]
    exact ⟨fun h => hne (Option.some.inj h), by simp⟩
  · intro hw
    unfold Azure.startWorker
    cases a.copy <;> simp [hw, SetAzureFlag]
  · intro msg hc
    simp only [Azure.startWorker, hc]
    exact not_mem_removeFile _ _
  · intro hc
    simp only [Azure.startWorker, hc]
    exact mem_createFile _ _
  · intro path hp hne
    have h1 : path ∈ createFile w.files (mediaFolder ++ seen.get b) := by
      unfold createFile
      split_ifs
      · exact hp
      · exact List.mem_cons_of_mem _ hp
    unfold Azure.startWorker
    cases a.copy with
    | none => exact h1
    | some e =>
      simp only [removeFile, List.mem_filter]
      exact ⟨h1, by simpa using hne⟩

/-- C6 (amended) at a concrete input: the download of `images/a.jpg` fails with
the text "unexpected EOF" and the bookkeeping write is executed. -/
theorem download_bookkeeping_witness :
    failingAttempt.writeApplied = true ∧ failingAttempt.copy = some "unexpected EOF" ∧
    (∀ r ∈ (Azure.startWorker "/m/" failingAttempt ("images", "a.jpg")
        (buildQueue (GetPendingAzureContent freshWorld.sync))
        (freshWorld, buildQueue (GetPendingAzureContent freshWorld.sync))).1.sync,
      r.key = ("images", "a.jpg") →
        r.azure_status = 2 ∧ r.azure_error = some "unexpected EOF" ∧
        ("unexpected EOF" ≠ "" → r.azure_error ≠ some "" ∧ r.azure_error ≠ none)) ∧
    "/m/" ++ (buildQueue (GetPendingAzureContent freshWorld.sync)).get "a.jpg"
      ∉ (Azure.startWorker "/m/" failingAttempt ("images", "a.jpg")
        (buildQueue (GetPendingAzureContent freshWorld.sync))
        (freshWorld, buildQueue (GetPendingAzureContent freshWorld.sync))).1.files :=
  ⟨rfl, rfl,
   (download_bookkeeping "/m/" failingAttempt ("images", "a.jpg")
    (buildQueue (GetPendingAzureContent freshWorld.sync)) freshWorld
    (buildQueue (GetPendingAzureContent freshWorld.sync))).2.2.1 rfl "unexpected EOF" rfl,
   (download_bookkeeping "/m/" failingAttempt ("images", "a.jpg")
    (buildQueue (GetPendingAzureContent freshWorld.sync)) freshWorld
    (buildQueue (GetPendingAzureContent freshWorld.sync))).2.2.2.2.1 "unexpected EOF" rfl⟩

/-! ## Drain termination: `initiateDownload` -/

theorem pending_SetAzureFlag (now : Nat) (c b : String) (st : Nat) (msg : String)
    (hst : st ≠ 0) (t : List SyncRecord) :
    (SetAzureFlag true now c b st msg t).filter (fun r => r.azure_status == 0)
      = (t.filter (fun r => r.azure_status == 0)).filter
          (fun r => !decide (r.key = (c, b))) := by
  induction t with
  | nil => rfl
  | cons r t ih =>
    simp only [SetAzureFlag, if_true, List.map_cons] at ih ⊢
    by_cases h : r.container = c ∧ r.blob = b
    · have hk : r.key = (c, b) := by simp [SyncRecord.key, h]
      by_cases h0 : r.azure_status = 0
      · simp [List.filter_cons, h, hst, h0, hk, ih]
      · simp [List.filter_cons, h, hst, h0, ih]
    · have hk : ¬ r.key = (c, b) := by simpa [SyncRecord.key] using h
      by_cases h0 : r.azure_status = 0
      · simp [List.filter_cons, h, h0, hk, ih]
      · simp [List.filter_cons, h, h0, ih]

theorem pending_downloadWorker (mediaFolder : String) (a : DownloadAttempt)
    (sc : String × String) (seen : Queue) (st : World × Queue)
    (hw : a.writeApplied = true) :
    (Azure.startWorker mediaFolder a sc seen st).1.sync.filter (fun r => r.azure_status == 0)
      = (st.1.sync.filter (fun r => r.azure_status == 0)).filter
          (fun r => !decide (r.key = sc)) := by
  unfold Azure.startWorker
  rw [hw]
  cases a.copy with
  | none => exact pending_SetAzureFlag _ sc.1 sc.2 statusCompleted _ (by decide) _
  | some e => exact pending_SetAzureFlag _ sc.1 sc.2 statusFailed _ (by decide) _

theorem pending_downloadBatch (mediaFolder : String) (attempt : Nat → DownloadAttempt)
    (seen : Queue) (hw : ∀ idx, (attempt idx).writeApplied = true)
    (ks : List (String × String)) (idx : Nat) (st : World × Queue) :
    (downloadBatch mediaFolder attempt seen idx ks st).1.sync.filter
        (fun r => r.azure_status == 0)
      = (st.1.sync.filter (fun r => r.azure_status == 0)).filter
          (fun r => !decide (r.key ∈ ks)) := by
  induction ks generalizing idx st with
  | nil => simp [downloadBatch]
  | cons k ks ih =>
    simp only [downloadBatch]
    rw [ih, pending_downloadWorker _ _ _ _ _ (hw idx), List.filter_filter]
    apply List.filter_congr
    intro r _
    by_cases h1 : r.key = k <;> by_cases h2 : r.key ∈ ks <;> simp [h1, h2]

theorem filter_not_mem_take {α β : Type} [DecidableEq β] (f : α → β) (l : List α) (n : Nat)
    (hl : (l.map f).Nodup) :
    l.filter (fun x => !decide (f x ∈ (l.take n).map f)) = l.drop n := by
  induction l generalizing n with
  | nil => simp
  | cons x l ih =>
    cases n with
    | zero => simp
    | succ n =>
      rw [List.map_cons, List.nodup_cons] at hl
      simp only [List.take_succ_cons, List.map_cons, List.drop_succ_cons, List.filter_cons,
        List.mem_cons, true_or, decide_True, Bool.not_true, Bool.false_eq_true, if_false]
      rw [← ih n hl.2]
      apply List.filter_congr
      intro y hy
      have hne : f y ≠ f x := by
        intro h
        exact hl.1 (h ▸ List.mem_map_of_mem f hy)
      simp [hne]

theorem pending_after_batch (mediaFolder : String) (attempt : Nat → DownloadAttempt)
    (hw : ∀ idx, (attempt idx).writeApplied = true) (w : World)
    (hu : ((w.sync.filter (fun r => r.azure_status == 0)).map SyncRecord.key).Nodup) :
    (downloadBatch mediaFolder attempt (buildQueue (GetPendingAzureContent w.sync)) 0
        (GetPendingAzureContent w.sync)
        (w, buildQueue (GetPendingAzureContent w.sync))).1.sync.filter
        (fun r => r.azure_status == 0)
      = (w.sync.filter (fun r => r.azure_status == 0)).drop 10 := by
  rw [pending_downloadBatch _ _ _ hw]
  have := filter_not_mem_take SyncRecord.key (w.sync.filter (fun r => r.azure_status == 0)) 10 hu
  simpa [GetPendingAzureContent, pendingAzureRows, SyncRecord.key] using this

theorem drain_polls_aux (mediaFolder : String) (attempt : Nat → Nat → DownloadAttempt)
    (hw : ∀ poll idx, (attempt poll idx).writeApplied = true)
    (fuel : Nat) : ∀ (poll : Nat) (w : World),
    ((w.sync.filter (fun r => r.azure_status == 0)).map SyncRecord.key).Nodup →
    (pendingCount w.sync + 9) / 10 + 1 ≤ fuel →
    ∃ sizes w2, initiateDownload mediaFolder attempt fuel poll w = some (sizes ++ [0], w2) ∧
      sizes.length = (pendingCount w.sync + 9) / 10 ∧ (∀ n ∈ sizes, n ≠ 0) ∧
      pendingCount w2.sync = 0 := by
  induction fuel with
  | zero => intro poll w _ hf; omega
  | succ fuel ih =>
    intro poll w hu hf
    have hlen : (GetPendingAzureContent w.sync).length = min 10 (pendingCount w.sync) := by
      simp [GetPendingAzureContent, pendingAzureRows, pendingCount, List.length_take]
    by_cases h0 : pendingCount w.sync = 0
    · have hnil : GetPendingAzureContent w.sync = [] := by
        apply List.eq_nil_of_length_eq_zero
        rw [hlen, h0]; rfl
      refine ⟨[], w, ?_, ?_, ?_, h0⟩
      · simp [initiateDownload, hnil, downloadBatch]
      · simp [h0]
      · intro n hn; simp at hn
    · have hpos : (GetPendingAzureContent w.sync).length ≠ 0 := by
        rw [hlen]; omega
      have hafter := pending_after_batch mediaFolder (attempt poll) (hw poll) w hu
      have hcount : pendingCount (downloadBatch mediaFolder (attempt poll)
          (buildQueue (GetPendingAzureContent w.sync)) 0
          (GetPendingAzureContent w.sync)
          (w, buildQueue (GetPendingAzureContent w.sync))).1.sync
          = pendingCount w.sync - 10 := by
        unfold pendingCount
        rw [hafter, List.length_drop]
      have hu2 : (((downloadBatch mediaFolder (attempt poll)
          (buildQueue (GetPendingAzureContent w.sync)) 0
          (GetPendingAzureContent w.sync)
          (w, buildQueue (GetPendingAzureContent w.sync))).1.sync.filter
          (fun r => r.azure_status == 0)).map SyncRecord.key).Nodup := by
        rw [hafter]
        exact hu.sublist ((List.drop_sublist _ _).map _)
      obtain ⟨sizes, w2, hrun, hsz, hnz, hdone⟩ := ih (poll + 1) _ hu2 (by rw [hcount]; omega)
      refine ⟨(GetPendingAzureContent w.sync).length :: sizes, w2, ?_, ?_, ?_, hdone⟩
      · simp only [initiateDownload, hpos, ne_eq, not_false_eq_true, if_true, hrun,
          Option.map_some', List.cons_append]
      · rw [List.length_cons, hsz, hcount]; omega
      · intro n hn
        rcases List.mem_cons.1 hn with rfl | hn
        · exact hpos
        · exact hnz n hn

/-- C5 (counterexample): eleven records are pending download, the eleventh
with the (container, blob) pair of the first; the first batch of ten marks the
eleventh too, so `initiateDownload` makes one non-empty poll and then the empty
one, not the two non-empty polls of ceil(11/10). -/
theorem drain_with_repeated_pair :
    pendingCount elevenWithRepeat = 11 ∧ (11 + 9) / 10 = 2 ∧
    (initiateDownload "/m/" allSucceed 3 0 { sync := elevenWithRepeat, files := [] }).map
      Prod.fst = some [10, 0] := by
  decide

/-- C5 (amended): when no two records pending download share their
(container, blob) pair, N records are pending and every worker's status write
is executed, `initiateDownload` returns (for every recursion bound above
ceil(N/10)) after exactly ceil(N/10) polls with a non-empty batch followed by
one poll with an empty batch, and leaves no record pending download. -/
theorem drain_polls (mediaFolder : String) (attempt : Nat → Nat → DownloadAttempt)
    (fuel poll : Nat) (w : World)
    (hw : ∀ poll idx, (attempt poll idx).writeApplied = true)
    (hu : ((w.sync.filter (fun r => r.azure_status == 0)).map SyncRecord.key).Nodup)
    (hf : (pendingCount w.sync + 9) / 10 + 1 ≤ fuel) :
    ∃ sizes w2, initiateDownload mediaFolder attempt fuel poll w = some (sizes ++ [0], w2) ∧
      sizes.length = (pendingCount w.sync + 9) / 10 ∧ (∀ n ∈ sizes, n ≠ 0) ∧
      pendingCount w2.sync = 0 :=
  drain_polls_aux mediaFolder attempt hw fuel poll w hu hf

/-- C5 (amended) at a concrete input: two records pending download. -/
theorem drain_polls_witness :
    (∀ poll idx, (allSucceed poll idx).writeApplied = true) ∧
    ((threeRecords.filter (fun r => r.azure_status == 0)).map SyncRecord.key).Nodup ∧
    (pendingCount threeRecords + 9) / 10 + 1 ≤ 2 ∧
    ∃ sizes w2, initiateDownload "/m/" allSucceed 2 0 { sync := threeRecords, files := [] }
        = some (sizes ++ [0], w2) ∧
      sizes.length = (pendingCount threeRecords + 9) / 10 ∧ (∀ n ∈ sizes, n ≠ 0) ∧
      pendingCount w2.sync = 0 :=
  ⟨fun _ _ => rfl, by decide, by decide,
   drain_polls "/m/" allSucceed 2 0 { sync := threeRecords, files := [] } (fun _ _ => rfl)
     (by decide) (by decide)⟩

/-! ## The upload driver: per-record failures and `exitErrorf` -/

theorem find_filter_ne (q : Queue) (k k2 : String) (h : k2 ≠ k) :
    (q.filter (fun p => !(p.1 == k))).find? (fun p => p.1 == k2)
      = q.find? (fun p => p.1 == k2) := by
  induction q with
  | nil => rfl
  | cons p q ih =>
    by_cases h1 : p.1 = k
    · have e1 : (p.1 == k) = true := by simpa using h1
      have e2 : (p.1 == k2) = false := by
        simp only [beq_eq_false_iff_ne, ne_eq]
        intro h3
        exact h (h3 ▸ h1)
      rw [List.filter_cons, List.find?_cons]
      simp only [e1, e2, Bool.not_true, Bool.false_eq_true, if_false]
      exact ih
    · have e1 : (p.1 == k) = false := by simpa using h1
      rw [List.filter_cons]
      simp only [e1, Bool.not_false, if_true]
      rw [List.find?_cons, List.find?_cons, ih]

theorem Queue.get_delete_ne (q : Queue) (k k2 : String) (h : k2 ≠ k) :
    (q.delete k).get k2 = q.get k2 := by
  unfold Queue.get Queue.delete
  rw [find_filter_ne q k k2 h]

theorem Queue.get_set_eq (q : Queue) (k v : String) : (q.set k v).get k = v := by
  simp [Queue.set, Queue.get, List.find?_cons]

theorem Queue.get_set_ne (q : Queue) (k v k2 : String) (h : k2 ≠ k) :
    (q.set k v).get k2 = q.get k2 := by
  have e1 : (k == k2) = false := by
    simp only [beq_eq_false_iff_ne, ne_eq]
    exact fun h3 => h h3.symm
  unfold Queue.set Queue.get Queue.delete
  rw [List.find?_cons]
  simp only [e1]
  rw [find_filter_ne q k k2 h]

theorem buildQueue_fold_get (batch : List (String × String)) (q0 : Queue)
    (hnd : (batch.map Prod.snd).Nodup) :
    (∀ sc ∈ batch,
      (batch.foldl (fun q sc => q.set sc.2 (ProcessBlobName sc.1 sc.2)) q0).get sc.2
        = ProcessBlobName sc.1 sc.2) ∧
    (∀ b, b ∉ batch.map Prod.snd →
      (batch.foldl (fun q sc => q.set sc.2 (ProcessBlobName sc.1 sc.2)) q0).get b
        = q0.get b) := by
  induction batch generalizing q0 with
  | nil => simp
  | cons sc0 batch ih =>
    rw [List.map_cons, List.nodup_cons] at hnd
    obtain ⟨ih1, ih2⟩ := ih (q0.set sc0.2 (ProcessBlobName sc0.1 sc0.2)) hnd.2
    refine ⟨?_, ?_⟩
    · intro sc hsc
      simp only [List.foldl_cons]
      rcases List.mem_cons.1 hsc with rfl | hsc
      · rw [ih2 _ hnd.1, Queue.get_set_eq]
      · exact ih1 sc hsc
    · intro b hb
      simp only [List.foldl_cons]
      rw [List.map_cons, List.mem_cons, not_or] at hb
      rw [ih2 b hb.2, Queue.get_set_ne _ _ _ _ hb.1]

theorem buildQueue_get (batch : List (String × String)) (hnd : (batch.map Prod.snd).Nodup)
    (sc : String × String) (hsc : sc ∈ batch) :
    (buildQueue batch).get sc.2 = ProcessBlobName sc.1 sc.2 :=
  (buildQueue_fold_get batch [] hnd).1 sc hsc

theorem uploadWorker_running (mediaFolder : String) (a : UploadAttempt)
    (sc : String × String) (seen : Queue) (w : World) (q : Queue)
    (hf : mediaFolder ++ seen.get sc.2 ∈ w.files) (hs : a.sessionFails = false) :
    S3.startWorker mediaFolder a sc seen w q
      = UploadRun.running
          { w with sync := SetS3Flag a.writeApplied a.now sc.1 sc.2 a.status a.message w.sync }
          (q.delete sc.2) := by
  unfold S3.startWorker UploadAttempt.status UploadAttempt.message
  cases hu : a.upload <;> simp [hf, hs]

theorem uploadWorker_exits (mediaFolder : String) (a : UploadAttempt)
    (sc : String × String) (seen : Queue) (w : World) (q : Queue)
    (h : mediaFolder ++ seen.get sc.2 ∉ w.files ∨ a.sessionFails = true) :
    S3.startWorker mediaFolder a sc seen w q = UploadRun.exited w := by
  unfold S3.startWorker
  rcases h with h | h
  · simp [h]
  · simp [h]

theorem SetS3Flag_matching (now : Nat) (c b : String) (st : Nat) (msg : String)
    (t : List SyncRecord) (r : SyncRecord) (hr : r ∈ SetS3Flag true now c b st msg t)
    (hk : r.key = (c, b)) : r.s3_status = st ∧ r.s3_error = some msg := by
  simp only [SetS3Flag, if_true, List.mem_map] at hr
  obtain ⟨r0, _, rfl⟩ := hr
  by_cases h : r0.container = c ∧ r0.blob = b
  · simp [h]
  · exfalso
    apply h
    simp [h, SyncRecord.key] at hk

theorem SetS3Flag_other (applied : Bool) (now : Nat) (c b : String) (st : Nat) (msg : String)
    (t : List SyncRecord) (r : SyncRecord) (hr : r ∈ SetS3Flag applied now c b st msg t)
    (hk : r.key ≠ (c, b)) : r ∈ t := by
  cases applied with
  | false => exact hr
  | true =>
    simp only [SetS3Flag, if_true, List.mem_map] at hr
    obtain ⟨r0, hr0, rfl⟩ := hr
    by_cases h : r0.container = c ∧ r0.blob = b
    · exfalso
      apply hk
      simp [h, SyncRecord.key]
    · simpa [h] using hr0

theorem uploadWorker_frame (mediaFolder : String) (a : UploadAttempt)
    (sc : String × String) (seen : Queue) (w : World) (q : Queue) (r : SyncRecord)
    (hr : r ∈ (S3.startWorker mediaFolder a sc seen w q).sync) (hk : r.key ≠ sc) :
    r ∈ w.sync := by
  by_cases hf : mediaFolder ++ seen.get sc.2 ∈ w.files
  · by_cases hs : a.sessionFails = false
    · rw [uploadWorker_running mediaFolder a sc seen w q hf hs] at hr
      exact SetS3Flag_other _ _ sc.1 sc.2 _ _ _ r hr hk
    · rw [uploadWorker_exits mediaFolder a sc seen w q (Or.inr (by simpa using hs))] at hr
      exact hr
  · rw [uploadWorker_exits mediaFolder a sc seen w q (Or.inl hf)] at hr
    exact hr

theorem uploadBatch_exited (mediaFolder : String) (attempt : Nat → UploadAttempt)
    (seen : Queue) (rest : List (String × String)) (idx : Nat) (w : World) :
    uploadBatch mediaFolder attempt seen idx rest (UploadRun.exited w) = UploadRun.exited w := by
  cases rest <;> rfl

theorem uploadBatch_frame (mediaFolder : String) (attempt : Nat → UploadAttempt)
    (seen : Queue) (rest : List (String × String)) (idx : Nat) (run : UploadRun)
    (r : SyncRecord)
    (hr : r ∈ (uploadBatch mediaFolder attempt seen idx rest run).sync) (hk : r.key ∉ rest) :
    r ∈ run.sync := by
  induction rest generalizing idx run with
  | nil => simpa [uploadBatch] using hr
  | cons sc rest ih =>
    rw [List.mem_cons, not_or] at hk
    cases run with
    | exited w => rw [uploadBatch_exited] at hr; exact hr
    | running w q =>
      simp only [uploadBatch] at hr
      exact uploadWorker_frame mediaFolder (attempt idx) sc seen w q r (ih _ _ hr hk.2) hk.1

theorem SetS3Flag_ids (applied : Bool) (now : Nat) (c b : String) (st : Nat) (msg : String)
    (t : List SyncRecord) :
    (SetS3Flag applied now c b st msg t).map (fun r => (r.id, r.key))
      = t.map (fun r => (r.id, r.key)) := by
  cases applied with
  | false => rfl
  | true =>
    induction t with
    | nil => rfl
    | cons r t ih =>
      simp only [SetS3Flag, if_true, List.map_cons] at ih ⊢
      rw [ih]
      by_cases h : r.container = c ∧ r.blob = b <;> simp [h, SyncRecord.key]

theorem s3Worker_sync (mediaFolder : String) (a : UploadAttempt)
    (sc : String × String) (seen : Queue) (w : World) (q : Queue) :
    (S3.startWorker mediaFolder a sc seen w q).sync = w.sync ∨
    (S3.startWorker mediaFolder a sc seen w q).sync
      = SetS3Flag a.writeApplied a.now sc.1 sc.2 a.status a.message w.sync := by
  by_cases hf : mediaFolder ++ seen.get sc.2 ∈ w.files
  · by_cases hs : a.sessionFails = false
    · right
      rw [uploadWorker_running mediaFolder a sc seen w q hf hs]
      rfl
    · left
      rw [uploadWorker_exits mediaFolder a sc seen w q (Or.inr (by simpa using hs))]
      rfl
  · left
    rw [uploadWorker_exits mediaFolder a sc seen w q (Or.inl hf)]
    rfl

theorem uploadBatch_ids (mediaFolder : String) (attempt : Nat → UploadAttempt)
    (seen : Queue) (rest : List (String × String)) (idx : Nat) (run : UploadRun) :
    (uploadBatch mediaFolder attempt seen idx rest run).sync.map (fun r => (r.id, r.key))
      = run.sync.map (fun r => (r.id, r.key)) := by
  induction rest generalizing idx run with
  | nil => simp [uploadBatch]
  | cons sc rest ih =>
    cases run with
    | exited w => rw [uploadBatch_exited]
    | running w q =>
      simp only [uploadBatch]
      rw [ih]
      rcases s3Worker_sync mediaFolder (attempt idx) sc seen w q with h | h
      · rw [h]; rfl
      · rw [h, SetS3Flag_ids]; rfl

theorem uploadBatch_processed (mediaFolder : String) (attempt : Nat → UploadAttempt)
    (seen : Queue) (rest : List (String × String)) (idx : Nat) (w : World) (q : Queue)
    (hnd : rest.Nodup)
    (hfiles : ∀ sc ∈ rest, mediaFolder ++ seen.get sc.2 ∈ w.files)
    (hsess : ∀ i, (attempt i).sessionFails = false)
    (hwrite : ∀ i, (attempt i).writeApplied = true) :
    (uploadBatch mediaFolder attempt seen idx rest (UploadRun.running w q)).hasExited = false ∧
    ∀ i (hi : i < rest.length),
      ∀ r ∈ (uploadBatch mediaFolder attempt seen idx rest (UploadRun.running w q)).sync,
        r.key = rest.get ⟨i, hi⟩ →
        r.s3_status = (attempt (idx + i)).status ∧
        r.s3_error = some (attempt (idx + i)).message := by
  induction rest generalizing idx w q with
  | nil =>
    refine ⟨rfl, ?_⟩
    intro i hi; simp at hi
  | cons sc rest ih =>
    rw [List.nodup_cons] at hnd
    have hrun := uploadWorker_running mediaFolder (attempt idx) sc seen w q
      (hfiles sc (List.mem_cons_self _ _)) (hsess idx)
    have hfiles2 : ∀ sc2 ∈ rest, mediaFolder ++ seen.get sc2.2 ∈ w.files :=
      fun sc2 h2 => hfiles sc2 (List.mem_cons_of_mem _ h2)
    obtain ⟨ih1, ih2⟩ := ih (idx + 1)
      { w with sync := SetS3Flag (attempt idx).writeApplied (attempt idx).now sc.1 sc.2
                         (attempt idx).status (attempt idx).message w.sync }
      (q.delete sc.2) hnd.2 hfiles2
    simp only [uploadBatch, hrun]
    refine ⟨ih1, ?_⟩
    intro i hi r hr hk
    cases i with
    | zero =>
      have hk : r.key = sc := hk
      have hnot : r.key ∉ rest := by
        rw [hk]
        exact hnd.1
      have := uploadBatch_frame mediaFolder attempt seen rest (idx + 1) _ r hr hnot
      simp only [UploadRun.sync] at this
      rw [hwrite idx] at this
      exact SetS3Flag_matching _ sc.1 sc.2 _ _ _ r this hk
    | succ i =>
      have hi2 : i < rest.length := by simpa using hi
      have := ih2 i hi2 r hr (by simpa using hk)
      rw [show idx + (i + 1) = idx + 1 + i by omega]
      exact this

/-- C8 (counterexample): one record waits for upload and its staging file is
missing; `os.Open` fails, `exitErrorf` ends the process, and the record keeps
destination status 0 with no error stored. With two records of which the first
polled (key 2) has no staging file, the process ends before the other record,
whose file is present, is processed. When the upload fails but the bookkeeping
write is not executed, the record keeps destination status 0 as well. And when
two rows of a batch have the same (container, blob) pair and both uploads fail,
each write goes to both rows, so the rows end with the text of the later
worker and the earlier worker's text is not stored. -/
theorem upload_missing_file_exits :
    (uploadPoll "/m/" firstUploadFails
      { sync := [downloadedRow 1 "images" "a.jpg"], files := [] }).hasExited = true ∧
    (uploadPoll "/m/" firstUploadFails
      { sync := [downloadedRow 1 "images" "a.jpg"], files := [] }).sync
      = [downloadedRow 1 "images" "a.jpg"] ∧
    (downloadedRow 1 "images" "a.jpg").s3_status = 0 ∧
    (uploadPoll "/m/" firstUploadFails
      { sync := twoDownloaded, files := ["/m/a.jpg"] }).hasExited = true ∧
    (uploadPoll "/m/" firstUploadFails
      { sync := twoDownloaded, files := ["/m/a.jpg"] }).sync = twoDownloaded ∧
    (uploadPoll "/m/" failedUploadLostWrite
      { sync := [downloadedRow 1 "images" "a.jpg"], files := ["/m/a.jpg"] }).hasExited
      = false ∧
    (uploadPoll "/m/" failedUploadLostWrite
      { sync := [downloadedRow 1 "images" "a.jpg"], files := ["/m/a.jpg"] }).sync
      = [downloadedRow 1 "images" "a.jpg"] ∧
    (uploadPoll "/m/" bothUploadsFail
      { sync := twinDownloaded, files := ["/m/a.jpg"] }).sync.map
      (fun r => (r.id, r.s3_status, r.s3_error))
      = [(1, 2, some "SlowDown"), (2, 2, some "SlowDown")] := by
  decide

/-- C8 (amended): in a batch whose (container, blob) pairs are pairwise
different, whose workers all find their staging file, create their session and
have their bookkeeping write executed, the process does not exit and every
record is processed: a record whose upload fails with text `msg` ends with
`s3_status = 2` and error `msg`, a record whose upload succeeds ends with
`s3_status = 1` and the empty error. A worker whose staging file cannot be
opened, or whose session cannot be created, ends the process without a
bookkeeping write. -/
theorem upload_batch_bookkeeping (mediaFolder : String) (attempt : Nat → UploadAttempt)
    (batch : List (String × String)) (w : World)
    (hnd : batch.Nodup)
    (hfiles : ∀ sc ∈ batch, mediaFolder ++ (buildQueue batch).get sc.2 ∈ w.files)
    (hsess : ∀ i, (attempt i).sessionFails = false)
    (hwrite : ∀ i, (attempt i).writeApplied = true) :
    (uploadBatch mediaFolder attempt (buildQueue batch) 0 batch
      (UploadRun.running w (buildQueue batch))).hasExited = false ∧
    (∀ i (hi : i < batch.length),
      ∀ r ∈ (uploadBatch mediaFolder attempt (buildQueue batch) 0 batch
          (UploadRun.running w (buildQueue batch))).sync,
        r.key = batch.get ⟨i, hi⟩ →
        (∀ msg, (attempt i).upload = some msg →
          r.s3_status = 2 ∧ r.s3_error = some msg) ∧
        ((attempt i).upload = none → r.s3_status = 1 ∧ r.s3_error = some "")) ∧
    (uploadBatch mediaFolder attempt (buildQueue batch) 0 batch
      (UploadRun.running w (buildQueue batch))).sync.map (fun r => (r.id, r.key))
      = w.sync.map (fun r => (r.id, r.key)) ∧
    (∀ (a : UploadAttempt) (sc : String × String) (seen : Queue) (w2 : World) (q : Queue),
      (mediaFolder ++ seen.get sc.2 ∉ w2.files ∨ a.sessionFails = true) →
      S3.startWorker mediaFolder a sc seen w2 q = UploadRun.exited w2) := by
  obtain ⟨h1, h2⟩ := uploadBatch_processed mediaFolder attempt (buildQueue batch) batch 0 w
    (buildQueue batch) hnd hfiles hsess hwrite
  refine ⟨h1, ?_, uploadBatch_ids mediaFolder attempt (buildQueue batch) batch 0 _,
    fun a sc seen w2 q h => uploadWorker_exits mediaFolder a sc seen w2 q h⟩
  intro i hi r hr hk
  have := h2 i hi r hr hk
  rw [Nat.zero_add] at this
  refine ⟨?_, ?_⟩
  · intro msg hm
    simpa [UploadAttempt.status, UploadAttempt.message, hm, statusFailed] using this
  · intro hm
    simpa [UploadAttempt.status, UploadAttempt.message, hm, statusCompleted] using this

/-- C8 (amended) at a concrete input: two records with their staging files
present; the upload of the first polled fails, the other succeeds. -/
theorem upload_batch_bookkeeping_witness :
    twoBatch.Nodup ∧
    (∀ sc ∈ twoBatch, "/m/" ++ (buildQueue twoBatch).get sc.2 ∈ stagedWorld.files) ∧
    (∀ i, (firstUploadFails i).sessionFails = false) ∧
    (∀ i, (firstUploadFails i).writeApplied = true) ∧
    (uploadBatch "/m/" firstUploadFails (buildQueue twoBatch) 0 twoBatch
      (UploadRun.running stagedWorld (buildQueue twoBatch))).hasExited = false ∧
    (∀ i (hi : i < twoBatch.length),
      ∀ r ∈ (uploadBatch "/m/" firstUploadFails (buildQueue twoBatch) 0 twoBatch
          (UploadRun.running stagedWorld (buildQueue twoBatch))).sync,
        r.key = twoBatch.get ⟨i, hi⟩ →
        (∀ msg, (firstUploadFails i).upload = some msg →
          r.s3_status = 2 ∧ r.s3_error = some msg) ∧
        ((firstUploadFails i).upload = none → r.s3_status = 1 ∧ r.s3_error = some "")) ∧
    (uploadBatch "/m/" firstUploadFails (buildQueue twoBatch) 0 twoBatch
      (UploadRun.running stagedWorld (buildQueue twoBatch))).sync.map
      (fun r => (r.id, r.s3_status, r.s3_error))
      = [(1, 1, some ""), (2, 2, some "RequestTimeout")] :=
  ⟨by decide, by decide, fun _ => rfl, fun _ => rfl,
   (upload_batch_bookkeeping "/m/" firstUploadFails twoBatch stagedWorld (by decide)
     (by decide) (fun _ => rfl) (fun _ => rfl)).1,
   (upload_batch_bookkeeping "/m/" firstUploadFails twoBatch stagedWorld (by decide)
     (by decide) (fun _ => rfl) (fun _ => rfl)).2.1,
   by decide⟩

/-! ## Bookkeeping writes touch their own direction only -/

theorem forall₂_map_self {α : Type} (f : α → α) (R : α → α → Prop) (l : List α)
    (h : ∀ a ∈ l, R a (f a)) : List.Forall₂ R l (l.map f) := by
  induction l with
  | nil => exact List.Forall₂.nil
  | cons a l ih =>
    exact List.Forall₂.cons (h a (List.mem_cons_self _ _))
      (ih (fun b hb => h b (List.mem_cons_of_mem _ hb)))

/-- C18: when its statement is executed, `SetAzureFlag` returns the rows of the
table in the same order and number; a row whose (container, blob) pair matches
gets the given `azure_status` and `azure_error` and the given time as
`updated_at` and keeps every other field (`id`, `container`, `blob`,
`s3_status`, `s3_error`, `created_at`); every other row is unchanged.
`SetS3Flag` does the same with `s3_status` and `s3_error`, keeping
`azure_status` and `azure_error`. When the statement is not executed the table
is unchanged. -/
theorem flags_touch_own_direction (now : Nat) (c b : String) (st : Nat) (msg : String)
    (t : List SyncRecord) :
    List.Forall₂
      (fun r r2 =>
        (r.key = (c, b) →
          r2 = { r with azure_status := st, azure_error := some msg, updated_at := some now } ∧
          r2.id = r.id ∧ r2.container = r.container ∧ r2.blob = r.blob ∧
          r2.s3_status = r.s3_status ∧ r2.s3_error = r.s3_error ∧
          r2.created_at = r.created_at) ∧
        (r.key ≠ (c, b) → r2 = r))
      t (SetAzureFlag true now c b st msg t) ∧
    List.Forall₂
      (fun r r2 =>
        (r.key = (c, b) →
          r2 = { r with s3_status := st, s3_error := some msg, updated_at := some now } ∧
          r2.id = r.id ∧ r2.container = r.container ∧ r2.blob = r.blob ∧
          r2.azure_status = r.azure_status ∧ r2.azure_error = r.azure_error ∧
          r2.created_at = r.created_at) ∧
        (r.key ≠ (c, b) → r2 = r))
      t (SetS3Flag true now c b st msg t) ∧
    (SetAzureFlag true now c b st msg t).length = t.length ∧
    (SetS3Flag true now c b st msg t).length = t.length ∧
    SetAzureFlag false now c b st msg t = t ∧
    SetS3Flag false now c b st msg t = t := by
  refine ⟨?_, ?_, by simp [SetAzureFlag], by simp [SetS3Flag], rfl, rfl⟩
  · simp only [SetAzureFlag, if_true]
    apply forall₂_map_self
    intro r _
    by_cases h : r.container = c ∧ r.blob = b
    · simp [SyncRecord.key, h]
    · simp [SyncRecord.key, h]
  · simp only [SetS3Flag, if_true]
    apply forall₂_map_self
    intro r _
    by_cases h : r.container = c ∧ r.blob = b
    · simp [SyncRecord.key, h]
    · simp [SyncRecord.key, h]

/-! ## The live reset -/

theorem ResetLiveContainer_eq_map (t : List Container) :
    ResetLiveContainer t
      = t.map (fun r => if r.name ∈ Database.liveContainerList then { r with status := 0 }
          else r) := by
  simp only [ResetLiveContainer, Database.liveContainerList, List.foldl_cons, List.foldl_nil,
    updateContainerStatus, List.map_map]
  apply List.map_congr_left
  intro r _
  by_cases h1 : r.name = "employees-data"
  · simp [h1]
  · by_cases h2 : r.name = "reports"
    · simp [h1, h2]
    · simp [h1, h2]

/-- C12: `ResetLiveContainer` returns the rows of the table in the same order
and number with their names and `created_at`; a row whose name is in the list
of `database/main.go` ends with status 0 whatever its status was; every other
row is unchanged; and every row named in that list is afterwards among the
rows with status 0, so `GetPendingContainer` returns its name when at most 100
rows are pending. -/
theorem reset_live_frame (t : List Container) :
    List.Forall₂
      (fun r r2 =>
        r2.name = r.name ∧ r2.created_at = r.created_at ∧
        (r.name ∈ Database.liveContainerList → r2.status = 0) ∧
        (r.name ∉ Database.liveContainerList → r2 = r))
      t (ResetLiveContainer t) ∧
    (ResetLiveContainer t).length = t.length ∧
    (∀ r ∈ t, r.name ∈ Database.liveContainerList →
      r.name ∈ ((ResetLiveContainer t).filter (fun r => r.status == 0)).map Container.name ∧
      (((ResetLiveContainer t).filter (fun r => r.status == 0)).length ≤ 100 →
        r.name ∈ GetPendingContainer (ResetLiveContainer t))) := by
  have hmem : ∀ r ∈ t, r.name ∈ Database.liveContainerList →
      r.name ∈ ((ResetLiveContainer t).filter (fun r => r.status == 0)).map Container.name := by
    intro r hr hl
    rw [ResetLiveContainer_eq_map, List.mem_map]
    refine ⟨{ r with status := 0 }, ?_, rfl⟩
    rw [List.mem_filter]
    refine ⟨?_, by simp⟩
    rw [List.mem_map]
    exact ⟨r, hr, by simp [hl]⟩
  refine ⟨?_, ?_, ?_⟩
  · rw [ResetLiveContainer_eq_map]
    apply forall₂_map_self
    intro r _
    by_cases h : r.name ∈ Database.liveContainerList
    · simp [h]
    · simp [h]
  · rw [ResetLiveContainer_eq_map, List.length_map]
  · intro r hr hl
    refine ⟨hmem r hr hl, ?_⟩
    intro hle
    unfold GetPendingContainer
    rw [List.take_of_length_le hle]
    exact hmem r hr hl

/-- C11 (the code at the failing input): the mapper treats `images` as live
and marks it 100 after a scan with an eligible blob, but `images` is not in the
list `ResetLiveContainer` walks, so the reset leaves its status at 100 and
`GetPendingContainer` does not return it; of the names the mapper treats as
live only `employees-data` and `reports` are reset. -/
theorem reset_misses_live_container :
    isLiveContainer liveContainerList "images" = true ∧
    statusOf (traverseContainerWorker 7 "images" demoListing demoDB).db.containers "images"
      = some 100 ∧
    statusOf (ResetLiveContainer
      (traverseContainerWorker 7 "images" demoListing demoDB).db.containers) "images"
      = some 100 ∧
    "images" ∉ GetPendingContainer (ResetLiveContainer
      (traverseContainerWorker 7 "images" demoListing demoDB).db.containers) ∧
    liveContainerList.filter (fun n => decide (n ∈ Database.liveContainerList))
      = ["employees-data", "reports"] ∧
    liveContainerList.filter (fun n => !decide (n ∈ Database.liveContainerList) && n != "")
      = ["employees-indentity", "videos", "images"] := by
  decide

/-! ## The end-to-end scenario -/

/-- C14: from an empty sync table and the pending container `images` listing
`a.jpg` and `b.xml`, mapping creates exactly one sync record, for `a.jpg`, with
both statuses 0; the download driver makes one non-empty and one empty poll and
leaves its `azure_status` at 1; one upload poll then leaves its `s3_status` at 1
without exiting; and the next `GetPendingS3Content` returns no record. -/
theorem end_to_end_scenario :
    scenarioMapped
      = [{ id := 1, container := "images", blob := "a.jpg", azure_status := 0,
           azure_error := none, s3_status := 0, s3_error := none, created_at := 7,
           updated_at := none }] ∧
    (initiateDownload "/m/" allSucceed 3 0 { sync := scenarioMapped, files := [] }).map Prod.fst
      = some [1, 0] ∧
    scenarioDownloaded.sync.map (fun r => (r.key, r.azure_status, r.s3_status))
      = [(("images", "a.jpg"), 1, 0)] ∧
    GetPendingS3Content scenarioDownloaded.sync = [("images", "a.jpg")] ∧
    scenarioUploaded.hasExited = false ∧
    scenarioUploaded.sync.map (fun r => (r.key, r.azure_status, r.s3_status))
      = [(("images", "a.jpg"), 1, 1)] ∧
    GetPendingS3Content scenarioUploaded.sync = [] := by
  decide

/-! ## Staging file names of the two drivers -/

/-- C15 (the code at the failing input): two records pending download have the
same blob name, in the containers `asset-1` and `images`. The download queue
has one entry for the blob name, written last for `images`, so the worker of
the `asset-1` record writes the unshortened name, not
`ProcessBlobName "asset-1"` of it, and no file of the shortened name exists
after the download. The upload queue is built in the opposite order and holds
the shortened name, so the first upload worker opens a file the download never
wrote and the process exits. -/
theorem staging_names_collide :
    GetPendingAzureContent sameBlobTwice = [("asset-1", taggedBlob), ("images", taggedBlob)] ∧
    (buildQueue (GetPendingAzureContent sameBlobTwice)).get taggedBlob = taggedBlob ∧
    ProcessBlobName "asset-1" taggedBlob = "v-sd.mp4" ∧
    "/m/v-sd.mp4" ∉ sameBlobDownloaded.files ∧
    "/m/" ++ taggedBlob ∈ sameBlobDownloaded.files ∧
    GetPendingS3Content sameBlobDownloaded.sync
      = [("images", taggedBlob), ("asset-1", taggedBlob)] ∧
    (buildQueue (GetPendingS3Content sameBlobDownloaded.sync)).get taggedBlob = "v-sd.mp4" ∧
    ProcessBlobName "images" taggedBlob = taggedBlob ∧
    (uploadPoll "/m/" allUploadsSucceed sameBlobDownloaded).hasExited = true := by
  decide

/-! ## `CreateContainerMatrix` -/

theorem matrixRow_eq (container : List String) (rowIdx : Nat)
    (h : rowIdx * 10 < container.length) :
    matrixRow container rowIdx = some ((container.drop (rowIdx * 10)).take 10) := by
  unfold matrixRow sliceRange columnCapacity tenGap
  have hd : ((container.length : Int) - ((rowIdx * 10 : Nat) : Int)).natAbs
      = container.length - rowIdx * 10 := by omega
  simp only [hd]
  by_cases hc : container.length - rowIdx * 10 ≥ 10
  · have h1 : rowIdx * 10 ≤ (1 + rowIdx) * 10 ∧ (1 + rowIdx) * 10 ≤ container.length := by
      omega
    have h2 : (1 + rowIdx) * 10 - rowIdx * 10 = 10 := by omega
    simp only [hc, if_true, h1, and_self, h2]
  · have h1 : rowIdx * 10 ≤ rowIdx * 10 + (container.length - rowIdx * 10) ∧
        rowIdx * 10 + (container.length - rowIdx * 10) ≤ container.length := by omega
    have h2 : rowIdx * 10 + (container.length - rowIdx * 10) - rowIdx * 10
        = container.length - rowIdx * 10 := by omega
    simp only [hc, if_false, h1, and_self, if_true, h2]
    have hl : (container.drop (rowIdx * 10)).length = container.length - rowIdx * 10 :=
      List.length_drop _ _
    rw [List.take_of_length_le (by omega), List.take_of_length_le (by omega)]

theorem fillMatrix_eq (container : List String) (k : Nat) : ∀ rowIdx : Nat,
    (∀ i, rowIdx ≤ i → i < rowIdx + k → i * 10 < container.length) →
    fillMatrix container k rowIdx
      = some ((List.range' rowIdx k).map (fun i => (container.drop (i * 10)).take 10)) := by
  induction k with
  | zero => intro rowIdx _; rfl
  | succ k ih =>
    intro rowIdx h
    have h0 := matrixRow_eq container rowIdx (h rowIdx (Nat.le_refl _) (by omega))
    have h1 := ih (rowIdx + 1) (fun i hi1 hi2 => h i (by omega) (by omega))
    simp only [fillMatrix, h0, h1, Option.map_some', List.range'_succ, List.map_cons]

theorem chunks_join (container : List String) (k : Nat) :
    ((List.range k).map (fun i => (container.drop (i * 10)).take 10)).flatten
      = container.take (k * 10) := by
  induction k with
  | zero => simp
  | succ k ih =>
    rw [List.range_succ, List.map_append, List.flatten_append, ih]
    simp only [List.map_cons, List.map_nil, List.flatten_cons, List.flatten_nil, List.append_nil]
    rw [show (k + 1) * 10 = k * 10 + 10 by omega, List.take_add]

/-- C16: `CreateContainerMatrix` returns (no slice bound is out of range) the
list cut into consecutive groups: ceil(n/10) groups, every group but the last
of exactly 10 names, the last of 1 to 10 names, the groups concatenated in
order giving back the input, and no group for the empty list. -/
theorem matrix_groups (container : List String) :
    ∃ m, CreateContainerMatrix container = some m ∧
      m.length = (container.length + 9) / 10 ∧
      m.flatten = container ∧
      (∀ i (h : i < m.length), i + 1 < m.length → (m.get ⟨i, h⟩).length = 10) ∧
      (∀ i (h : i < m.length), i + 1 = m.length →
        1 ≤ (m.get ⟨i, h⟩).length ∧ (m.get ⟨i, h⟩).length ≤ 10) ∧
      (container = [] → m = []) := by
  have hrows : ∀ i, 0 ≤ i → i < 0 + (container.length + 9) / 10 →
      i * 10 < container.length := by
    intro i _ hi; omega
  refine ⟨(List.range ((container.length + 9) / 10)).map
    (fun i => (container.drop (i * 10)).take 10), ?_, ?_, ?_, ?_, ?_, ?_⟩
  · unfold CreateContainerMatrix tenGap
    rw [show (10 - 1 : Nat) = 9 from rfl, fillMatrix_eq container _ 0 hrows,
      List.range_eq_range']
  · simp
  · rw [chunks_join, List.take_of_length_le (by omega)]
  · intro i h h2
    simp only [List.length_map, List.length_range] at h h2
    simp only [List.get_eq_getElem, List.getElem_map, List.getElem_range, List.length_take,
      List.length_drop]
    omega
  · intro i h h2
    simp only [List.length_map, List.length_range] at h h2
    simp only [List.get_eq_getElem, List.getElem_map, List.getElem_range, List.length_take,
      List.length_drop]
    omega
  · intro he
    subst he
    rfl

/-- C16 at a concrete input: 23 names give groups of 10, 10 and 3. -/
theorem matrix_groups_witness :
    (CreateContainerMatrix twentyThree).map (fun m => m.map List.length) = some [10, 10, 3] ∧
    ∃ m, CreateContainerMatrix twentyThree = some m ∧
      m.length = (twentyThree.length + 9) / 10 ∧
      m.flatten = twentyThree ∧
      (∀ i (h : i < m.length), i + 1 < m.length → (m.get ⟨i, h⟩).length = 10) ∧
      (∀ i (h : i < m.length), i + 1 = m.length →
        1 ≤ (m.get ⟨i, h⟩).length ∧ (m.get ⟨i, h⟩).length ≤ 10) ∧
      (twentyThree = [] → m = []) :=
  ⟨by decide, matrix_groups twentyThree⟩

/-! ## `ProcessBlobName` -/

theorem replaceScan_skip (old new : List Char) (a rest : List Char) :
    replaceScan old new a.length (a ++ rest) = replaceScan old new 0 rest := by
  induction a with
  | nil => cases rest <;> simp [replaceScan]
  | cons c a ih => simpa [replaceScan] using ih

theorem replaceScan_match (old new rest : List Char) (h : old ≠ []) :
    replaceScan old new 0 (old ++ rest) = new ++ replaceScan old new 0 rest := by
  cases old with
  | nil => exact absurd rfl h
  | cons c old2 =>
    have hp : (c :: old2).isPrefixOf (c :: (old2 ++ rest)) = true := by
      rw [List.isPrefixOf_iff_prefix]
      exact List.prefix_append (c :: old2) rest
    rw [List.cons_append]
    simp only [replaceScan, hp, if_true, List.length_cons, Nat.add_sub_cancel]
    rw [replaceScan_skip]

theorem replaceScan_no_match (old new tail : List Char) (p : List Char)
    (h : ∀ i, i < p.length → old.isPrefixOf (p.drop i ++ tail) = false) :
    replaceScan old new 0 (p ++ tail) = p ++ replaceScan old new 0 tail := by
  induction p with
  | nil => rfl
  | cons c p ih =>
    have h0 : old.isPrefixOf (c :: (p ++ tail)) = false := by
      simpa using h 0 (by simp)
    rw [List.cons_append]
    simp only [replaceScan, h0, Bool.false_eq_true, if_false, List.cons_append]
    rw [ih]
    intro i hi
    simpa using h (i + 1) (by simpa using hi)

theorem no_straddle (old tail p : List Char)
    (hborder : ∀ j, j < old.length → 0 < j → (old.drop j).isPrefixOf old = false)
    (hp : ¬ old <:+: p) :
    ∀ i, i < p.length → old.isPrefixOf (p.drop i ++ (old ++ tail)) = false := by
  intro i hi
  by_contra hcon
  have hpre : old <+: p.drop i ++ (old ++ tail) := by
    rw [← List.isPrefixOf_iff_prefix]
    simpa using hcon
  have hdlen : (p.drop i).length = p.length - i := List.length_drop _ _
  by_cases hlen : old.length ≤ (p.drop i).length
  · have h1 : old <+: p.drop i :=
      List.prefix_of_prefix_length_le hpre (List.prefix_append _ _) hlen
    exact hp (h1.isInfix.trans (List.drop_suffix i p).isInfix)
  · have h1 : p.drop i <+: old :=
      List.prefix_of_prefix_length_le (List.prefix_append _ _) hpre (by omega)
    obtain ⟨e, he⟩ := h1
    have h2 : e <+: old ++ tail := by
      have hpre2 : p.drop i ++ e <+: p.drop i ++ (old ++ tail) := by
        rw [he]; exact hpre
      exact (List.prefix_append_right_inj _).1 hpre2
    have hel : e.length ≤ old.length := by
      rw [← he, List.length_append]; omega
    have h3 : e <+: old := List.prefix_of_prefix_length_le h2 (List.prefix_append _ _) hel
    have h4 : old.drop (p.drop i).length = e := by
      rw [← he, List.drop_left]
    have h5 := hborder (p.drop i).length (by omega) (by omega)
    rw [h4] at h5
    rw [← List.isPrefixOf_iff_prefix] at h3
    rw [h3] at h5
    exact Bool.noConfusion h5

theorem replaceScan_tagged (old new tail p : List Char) (hne : old ≠ [])
    (hborder : ∀ j, j < old.length → 0 < j → (old.drop j).isPrefixOf old = false)
    (htail : replaceScan old new 0 tail = tail) (hp : ¬ old <:+: p) :
    replaceScan old new 0 (p ++ (old ++ tail)) = p ++ (new ++ tail) := by
  rw [replaceScan_no_match old new (old ++ tail) p (no_straddle old tail p hborder hp),
    replaceScan_match old new tail hne, htail]

theorem replaceScan_clean (old new p : List Char) (hp : ¬ old <:+: p) :
    replaceScan old new 0 p = p := by
  have h := replaceScan_no_match old new [] p (by
    intro i _
    by_contra hcon
    have hpre : old <+: p.drop i := by
      rw [← List.isPrefixOf_iff_prefix]
      simpa using hcon
    exact hp (hpre.isInfix.trans (List.drop_suffix i p).isInfix))
  simpa [replaceScan] using h

theorem replaceScan_intercalate (old new : List Char) (hne : old ≠ [])
    (hborder : ∀ j, j < old.length → 0 < j → (old.drop j).isPrefixOf old = false)
    (parts : List (List Char)) (hparts : ∀ p ∈ parts, ¬ old <:+: p) :
    replaceScan old new 0 (List.intercalate old parts) = List.intercalate new parts := by
  induction parts with
  | nil => simp [List.intercalate, replaceScan]
  | cons p rest ih =>
    cases rest with
    | nil =>
      simp only [List.intercalate, List.intersperse, List.flatten_cons, List.flatten_nil,
        List.append_nil]
      exact replaceScan_clean old new p (hparts p (List.mem_cons_self _ _))
    | cons q rest =>
      have e1 : List.intercalate old (p :: q :: rest)
          = p ++ (old ++ List.intercalate old (q :: rest)) := by
        simp [List.intercalate, List.intersperse]
      have e2 : List.intercalate new (p :: q :: rest)
          = p ++ (new ++ List.intercalate new (q :: rest)) := by
        simp [List.intercalate, List.intersperse]
      rw [e1, e2, replaceScan_no_match old new _ p
        (no_straddle old _ p hborder (hparts p (List.mem_cons_self _ _))),
        replaceScan_match old new _ hne,
        ih (fun x hx => hparts x (List.mem_cons_of_mem _ hx))]

theorem first_occurrence (old s : List Char) (hne : old ≠ []) :
    ∀ (k : Nat) (a b : List Char),
    a.length = k → a ++ old ++ b = s →
    ∃ a2 b2, a2 ++ old ++ b2 = s ∧ ¬ old <:+: a2 := by
  intro k
  induction k using Nat.strong_induction_on with
  | _ k ih =>
    intro a b hk hs
    by_cases h : old <:+: a
    · obtain ⟨a1, a3, ha⟩ := h
      have hol : 0 < old.length := List.length_pos.2 hne
      refine ih a1.length ?_ a1 (a3 ++ old ++ b) rfl ?_
      · have hl := congrArg List.length ha
        simp only [List.length_append] at hl
        omega
      · rw [← hs, ← ha]; simp
    · exact ⟨a, b, hs, h⟩

theorem exists_parts_aux (old : List Char) (hne : old ≠ []) : ∀ (n : Nat) (s : List Char),
    s.length ≤ n →
    ∃ parts, parts ≠ [] ∧ (∀ p ∈ parts, ¬ old <:+: p) ∧ s = List.intercalate old parts := by
  intro n
  induction n with
  | zero =>
    intro s hs
    have hnil : s = [] := List.eq_nil_of_length_eq_zero (by omega)
    refine ⟨[[]], by simp, ?_, by simp [hnil, List.intercalate]⟩
    intro p hp
    rw [List.mem_singleton] at hp
    rw [hp, List.infix_nil]
    exact hne
  | succ n ih =>
    intro s hs
    by_cases h : old <:+: s
    · obtain ⟨a0, b0, h0⟩ := h
      obtain ⟨a, b, hab, hna⟩ := first_occurrence old s hne a0.length a0 b0 rfl h0
      have hol : 0 < old.length := List.length_pos.2 hne
      have hb : b.length ≤ n := by
        have := congrArg List.length hab
        simp only [List.length_append] at this
        omega
      obtain ⟨parts, hpn, hpp, hpb⟩ := ih b hb
      cases parts with
      | nil => exact absurd rfl hpn
      | cons q rest =>
        refine ⟨a :: q :: rest, by simp, ?_, ?_⟩
        · intro p hp
          rcases List.mem_cons.1 hp with rfl | hp
          · exact hna
          · exact hpp p hp
        · have e1 : List.intercalate old (a :: q :: rest)
              = a ++ (old ++ List.intercalate old (q :: rest)) := by
            simp [List.intercalate, List.intersperse]
          rw [e1, ← hpb, ← hab, List.append_assoc]
    · exact ⟨[s], by simp, by simpa using h, by simp [List.intercalate]⟩

theorem isPrefixOf_append_of_length_le (a b c : List Char) (h : a.length ≤ b.length) :
    a.isPrefixOf (b ++ c) = a.isPrefixOf b := by
  induction a generalizing b with
  | nil => simp
  | cons x a ih =>
    cases b with
    | nil => simp at h
    | cons y b =>
      simp only [List.cons_append, List.isPrefixOf_cons₂]
      rw [ih b (by simpa using h)]

theorem HasSuffix_append (p full suf : String)
    (h : suf.data.length ≤ full.data.length) :
    HasSuffix (p ++ full) suf = HasSuffix full suf := by
  unfold HasSuffix
  rw [String.data_append, List.reverse_append]
  exact isPrefixOf_append_of_length_le _ _ _ (by simpa using h)

/-- C17 (counterexample): in an `asset-` container, a blob name p followed by
the tagged suffix where p itself holds the tag comes back with both tags
shortened, not as p followed by `-sd.mp4`; and a blob name that is not of the
tagged form (it ends with `_b1800kbps_AAC_und_ch2_128kbps.mp4`) is changed. -/
theorem processBlobName_replaces_every_tag :
    doubleTagged = "a_H264_1800kbps_AAC_und_ch2_128kbps" ++
      "_H264_1800kbps_AAC_und_ch2_128kbps.mp4" ∧
    ProcessBlobName "asset-1" doubleTagged = "a-sd-sd.mp4" ∧
    ProcessBlobName "asset-1" doubleTagged ≠ "a_H264_1800kbps_AAC_und_ch2_128kbps" ++ "-sd.mp4" ∧
    HasSuffix tagInside "_H264_1800kbps_AAC_und_ch2_128kbps.mp4" = false ∧
    HasSuffix tagInside "_H264_4500kbps_AAC_und_ch2_128kbps.mp4" = false ∧
    ProcessBlobName "asset-1" tagInside = "a-sd_b1800kbps_AAC_und_ch2_128kbps.mp4" ∧
    ProcessBlobName "asset-1" tagInside ≠ tagInside := by
  decide

/-- C17 (amended): for a container name starting with `asset-` and a string p
that does not hold the tag `_H264_1800kbps_AAC_und_ch2_128kbps`, the blob name
p followed by the tag and `.mp4` becomes p followed by `-sd.mp4`; likewise with
the 4500 kbps tag and `-hd.mp4`; and the blob name is returned unchanged when
the container name does not start with `asset-` or the blob name ends with
neither `1800kbps_AAC_und_ch2_128kbps.mp4` nor
`4500kbps_AAC_und_ch2_128kbps.mp4`. Otherwise every occurrence of the tag is
replaced: a blob name ending with `1800kbps_AAC_und_ch2_128kbps.mp4` that is
the pieces p0, p1, ..., pn joined by the 1800 kbps tag, no piece holding the
tag, comes back as the same pieces joined by `-sd`; a blob name that ends with
`4500kbps_AAC_und_ch2_128kbps.mp4` and not with the 1800 suffix, likewise with
the 4500 kbps tag and `-hd`; and every string is such a join of pieces. -/
theorem processBlobName_shortens (containerName p : String)
    (hc : HasPrefix containerName "asset-" = true) :
    (¬ "_H264_1800kbps_AAC_und_ch2_128kbps".data <:+: p.data →
      ProcessBlobName containerName (p ++ "_H264_1800kbps_AAC_und_ch2_128kbps.mp4")
        = p ++ "-sd.mp4") ∧
    (¬ "_H264_4500kbps_AAC_und_ch2_128kbps".data <:+: p.data →
      ProcessBlobName containerName (p ++ "_H264_4500kbps_AAC_und_ch2_128kbps.mp4")
        = p ++ "-hd.mp4") ∧
    (∀ c b : String,
      (HasPrefix c "asset-" = false ∨
        (HasSuffix b "1800kbps_AAC_und_ch2_128kbps.mp4" = false ∧
         HasSuffix b "4500kbps_AAC_und_ch2_128kbps.mp4" = false)) →
      ProcessBlobName c b = b) ∧
    (∀ (blob : String) (parts : List (List Char)),
      HasSuffix blob "1800kbps_AAC_und_ch2_128kbps.mp4" = true →
      (∀ x ∈ parts, ¬ "_H264_1800kbps_AAC_und_ch2_128kbps".data <:+: x) →
      blob.data = List.intercalate "_H264_1800kbps_AAC_und_ch2_128kbps".data parts →
      (ProcessBlobName containerName blob).data = List.intercalate "-sd".data parts) ∧
    (∀ (blob : String) (parts : List (List Char)),
      HasSuffix blob "1800kbps_AAC_und_ch2_128kbps.mp4" = false →
      HasSuffix blob "4500kbps_AAC_und_ch2_128kbps.mp4" = true →
      (∀ x ∈ parts, ¬ "_H264_4500kbps_AAC_und_ch2_128kbps".data <:+: x) →
      blob.data = List.intercalate "_H264_4500kbps_AAC_und_ch2_128kbps".data parts →
      (ProcessBlobName containerName blob).data = List.intercalate "-hd".data parts) ∧
    (∀ tag s : List Char, tag ≠ [] →
      ∃ parts, (∀ x ∈ parts, ¬ tag <:+: x) ∧ s = List.intercalate tag parts) := by
  refine ⟨?_, ?_, ?_, ?_, ?_, ?_⟩
  · intro hp
    have hs : HasSuffix (p ++ "_H264_1800kbps_AAC_und_ch2_128kbps.mp4")
        "1800kbps_AAC_und_ch2_128kbps.mp4" = true := by
      rw [HasSuffix_append _ _ _ (by decide)]; decide
    have hr := replaceScan_tagged "_H264_1800kbps_AAC_und_ch2_128kbps".data "-sd".data
      ".mp4".data p.data (by decide) (by decide) (by decide) hp
    unfold ProcessBlobName Replace
    simp only [hc, hs, if_true]
    rw [if_neg (by decide)]
    apply String.ext
    rw [String.data_append, String.data_append]
    exact hr
  · intro hp
    have hs1 : HasSuffix (p ++ "_H264_4500kbps_AAC_und_ch2_128kbps.mp4")
        "1800kbps_AAC_und_ch2_128kbps.mp4" = false := by
      rw [HasSuffix_append _ _ _ (by decide)]; decide
    have hs2 : HasSuffix (p ++ "_H264_4500kbps_AAC_und_ch2_128kbps.mp4")
        "4500kbps_AAC_und_ch2_128kbps.mp4" = true := by
      rw [HasSuffix_append _ _ _ (by decide)]; decide
    have hr := replaceScan_tagged "_H264_4500kbps_AAC_und_ch2_128kbps".data "-hd".data
      ".mp4".data p.data (by decide) (by decide) (by decide) hp
    unfold ProcessBlobName Replace
    simp only [hc, hs1, hs2, if_true, Bool.false_eq_true, if_false]
    rw [if_neg (by decide)]
    apply String.ext
    rw [String.data_append, String.data_append]
    exact hr
  · intro c b h
    unfold ProcessBlobName
    rcases h with h | ⟨h1, h2⟩
    · simp [h]
    · simp [h1, h2]
  · intro blob parts hs hparts hblob
    unfold ProcessBlobName Replace
    simp only [hc, hs, if_true]
    rw [if_neg (by decide)]
    show replaceScan _ _ 0 blob.data = _
    rw [hblob]
    exact replaceScan_intercalate _ _ (by decide) (by decide) parts hparts
  · intro blob parts hs1 hs2 hparts hblob
    unfold ProcessBlobName Replace
    simp only [hc, hs1, hs2, if_true, Bool.false_eq_true, if_false]
    rw [if_neg (by decide)]
    show replaceScan _ _ 0 blob.data = _
    rw [hblob]
    exact replaceScan_intercalate _ _ (by decide) (by decide) parts hparts
  · intro tag s hne
    obtain ⟨parts, _, h1, h2⟩ := exists_parts_aux tag hne s.length s (Nat.le_refl _)
    exact ⟨parts, h1, h2⟩

/-- C17 (amended) at a concrete input: the container `asset-7` with p = `clip`,
and with the blob name `doubleTagged`, the pieces `a`, the empty piece and
`.mp4` joined by the tag. -/
theorem processBlobName_shortens_witness :
    HasPrefix "asset-7" "asset-" = true ∧
    ¬ "_H264_1800kbps_AAC_und_ch2_128kbps".data <:+: "clip".data ∧
    ProcessBlobName "asset-7" ("clip" ++ "_H264_1800kbps_AAC_und_ch2_128kbps.mp4")
      = "clip" ++ "-sd.mp4" ∧
    (ProcessBlobName "asset-7" doubleTagged).data
      = List.intercalate "-sd".data ["a".data, [], ".mp4".data] :=
  ⟨by decide, by decide,
   (processBlobName_shortens "asset-7" "clip" (by decide)).1 (by decide),
   (processBlobName_shortens "asset-7" "clip" (by decide)).2.2.2.1 doubleTagged
     ["a".data, [], ".mp4".data] (by decide) (by decide) (by decide)⟩

/-! ## No automatic retry -/

theorem uniqueKeys_eq (t : List SyncRecord) (hu : uniqueKeys t) (r r2 : SyncRecord)
    (hr : r ∈ t) (hr2 : r2 ∈ t) (hk : r.key = r2.key) : r = r2 :=
  List.inj_on_of_nodup_map hu hr hr2 hk

theorem uniqueKeys_of_ids (t t2 : List SyncRecord)
    (h : t2.map (fun r => (r.id, r.key)) = t.map (fun r => (r.id, r.key)))
    (hu : uniqueKeys t) : uniqueKeys t2 := by
  have h2 := congrArg (List.map Prod.snd) h
  simp only [List.map_map] at h2
  unfold uniqueKeys at hu ⊢
  have e : ∀ l : List SyncRecord, l.map SyncRecord.key
      = l.map (Prod.snd ∘ fun r => (r.id, r.key)) := fun l => rfl
  rw [e t2, h2, ← e t]
  exact hu

theorem SetAzureFlag_keeps (applied : Bool) (now : Nat) (c b : String) (st : Nat)
    (msg : String) (t : List SyncRecord) (r : SyncRecord) (hr : r ∈ t)
    (hk : r.key ≠ (c, b)) : r ∈ SetAzureFlag applied now c b st msg t := by
  cases applied with
  | false => exact hr
  | true =>
    simp only [SetAzureFlag, if_true, List.mem_map]
    refine ⟨r, hr, ?_⟩
    have h : ¬ (r.container = c ∧ r.blob = b) := by
      simpa [SyncRecord.key] using hk
    simp [h]

theorem SetS3Flag_keeps (applied : Bool) (now : Nat) (c b : String) (st : Nat)
    (msg : String) (t : List SyncRecord) (r : SyncRecord) (hr : r ∈ t)
    (hk : r.key ≠ (c, b)) : r ∈ SetS3Flag applied now c b st msg t := by
  cases applied with
  | false => exact hr
  | true =>
    simp only [SetS3Flag, if_true, List.mem_map]
    refine ⟨r, hr, ?_⟩
    have h : ¬ (r.container = c ∧ r.blob = b) := by
      simpa [SyncRecord.key] using hk
    simp [h]

theorem SetAzureFlag_destination (applied : Bool) (now : Nat) (c b : String) (st : Nat)
    (msg : String) (t : List SyncRecord) (r : SyncRecord) (hr : r ∈ t) :
    ∃ r2 ∈ SetAzureFlag applied now c b st msg t,
      r2.id = r.id ∧ r2.key = r.key ∧ r2.s3_status = r.s3_status ∧
      r2.s3_error = r.s3_error := by
  cases applied with
  | false => exact ⟨r, hr, rfl, rfl, rfl, rfl⟩
  | true =>
    simp only [SetAzureFlag, if_true]
    refine ⟨_, List.mem_map_of_mem _ hr, ?_⟩
    by_cases h : r.container = c ∧ r.blob = b <;> simp [h, SyncRecord.key]

theorem azureWorker_sync (mediaFolder : String) (a : DownloadAttempt)
    (sc : String × String) (seen : Queue) (st : World × Queue) :
    ∃ code msg, (Azure.startWorker mediaFolder a sc seen st).1.sync
      = SetAzureFlag a.writeApplied a.now sc.1 sc.2 code msg st.1.sync := by
  unfold Azure.startWorker
  cases a.copy with
  | none => exact ⟨statusCompleted, "", rfl⟩
  | some e => exact ⟨statusFailed, e, rfl⟩

theorem downloadBatch_ids (mediaFolder : String) (attempt : Nat → DownloadAttempt)
    (seen : Queue) (ks : List (String × String)) (idx : Nat) (st : World × Queue) :
    (downloadBatch mediaFolder attempt seen idx ks st).1.sync.map (fun r => (r.id, r.key))
      = st.1.sync.map (fun r => (r.id, r.key)) := by
  induction ks generalizing idx st with
  | nil => rfl
  | cons k ks ih =>
    simp only [downloadBatch]
    rw [ih]
    obtain ⟨code, msg, h⟩ := azureWorker_sync mediaFolder (attempt idx) k seen st
    rw [h, SetAzureFlag_ids]

theorem downloadBatch_keeps (mediaFolder : String) (attempt : Nat → DownloadAttempt)
    (seen : Queue) (ks : List (String × String)) (idx : Nat) (st : World × Queue)
    (r : SyncRecord) (hr : r ∈ st.1.sync) (hk : r.key ∉ ks) :
    r ∈ (downloadBatch mediaFolder attempt seen idx ks st).1.sync := by
  induction ks generalizing idx st with
  | nil => exact hr
  | cons k ks ih =>
    rw [List.mem_cons, not_or] at hk
    simp only [downloadBatch]
    apply ih _ _ _ hk.2
    obtain ⟨code, msg, h⟩ := azureWorker_sync mediaFolder (attempt idx) k seen st
    rw [h]
    exact SetAzureFlag_keeps _ _ k.1 k.2 _ _ _ r hr hk.1

theorem downloadBatch_destination (mediaFolder : String) (attempt : Nat → DownloadAttempt)
    (seen : Queue) (ks : List (String × String)) (idx : Nat) (st : World × Queue)
    (r : SyncRecord) (hr : r ∈ st.1.sync) :
    ∃ r2 ∈ (downloadBatch mediaFolder attempt seen idx ks st).1.sync,
      r2.id = r.id ∧ r2.key = r.key ∧ r2.s3_status = r.s3_status ∧
      r2.s3_error = r.s3_error := by
  induction ks generalizing idx st r with
  | nil => exact ⟨r, hr, rfl, rfl, rfl, rfl⟩
  | cons k ks ih =>
    simp only [downloadBatch]
    obtain ⟨code, msg, h⟩ := azureWorker_sync mediaFolder (attempt idx) k seen st
    obtain ⟨r1, hr1, e1, e2, e3, e4⟩ := SetAzureFlag_destination (attempt idx).writeApplied
      (attempt idx).now k.1 k.2 code msg st.1.sync r hr
    rw [← h] at hr1
    obtain ⟨r2, hr2, f1, f2, f3, f4⟩ := ih (idx + 1) _ r1 hr1
    exact ⟨r2, hr2, f1.trans e1, f2.trans e2, f3.trans e3, f4.trans e4⟩

theorem uploadBatch_keeps (mediaFolder : String) (attempt : Nat → UploadAttempt)
    (seen : Queue) (rest : List (String × String)) (idx : Nat) (run : UploadRun)
    (r : SyncRecord) (hr : r ∈ run.sync) (hk : r.key ∉ rest) :
    r ∈ (uploadBatch mediaFolder attempt seen idx rest run).sync := by
  induction rest generalizing idx run with
  | nil => simpa [uploadBatch] using hr
  | cons sc rest ih =>
    rw [List.mem_cons, not_or] at hk
    cases run with
    | exited w => rw [uploadBatch_exited]; exact hr
    | running w q =>
      simp only [uploadBatch]
      apply ih _ _ _ hk.2
      rcases s3Worker_sync mediaFolder (attempt idx) sc seen w q with h | h
      · rw [h]; exact hr
      · rw [h]; exact SetS3Flag_keeps _ _ sc.1 sc.2 _ _ _ r hr hk.1

theorem UploadRun.world_sync (run : UploadRun) : run.world.sync = run.sync := by
  cases run <;> rfl

theorem not_polled_for_download (t : List SyncRecord) (hu : uniqueKeys t) (r : SyncRecord)
    (hr : r ∈ t) (hs : r.azure_status ≠ 0) : r.key ∉ GetPendingAzureContent t := by
  intro hm
  simp only [GetPendingAzureContent, List.mem_map] at hm
  obtain ⟨r2, hr2, hk⟩ := hm
  have h2 := List.mem_of_mem_take hr2
  rw [List.mem_filter] at h2
  have : r2 = r := uniqueKeys_eq t hu r2 r h2.1 hr hk
  subst this
  exact hs (by simpa using h2.2)

theorem not_polled_for_upload (t : List SyncRecord) (hu : uniqueKeys t) (r : SyncRecord)
    (hr : r ∈ t) (hs : ¬ (r.azure_status = 1 ∧ r.s3_status = 0)) :
    r.key ∉ GetPendingS3Content t := by
  intro hm
  simp only [GetPendingS3Content, List.mem_map] at hm
  obtain ⟨r2, hr2, hk⟩ := hm
  have h2 := mem_pendingS3Rows t r2 hr2
  have : r2 = r := uniqueKeys_eq t hu r2 r h2.1 hr hk
  subst this
  exact hs h2.2

theorem driverStep_ids (mediaFolder : String) (op : DriverOp) (w : World) :
    (driverStep mediaFolder op w).sync.map (fun r => (r.id, r.key))
      = w.sync.map (fun r => (r.id, r.key)) := by
  cases op with
  | download attempt => exact downloadBatch_ids mediaFolder attempt _ _ 0 _
  | upload attempt =>
    simp only [driverStep, UploadRun.world_sync, uploadPoll]
    rw [uploadBatch_ids]
    rfl

theorem driverStep_source_failed (mediaFolder : String) (op : DriverOp) (w : World)
    (hu : uniqueKeys w.sync) (r : SyncRecord) (hr : r ∈ w.sync) (hs : r.azure_status = 2) :
    r ∈ (driverStep mediaFolder op w).sync := by
  cases op with
  | download attempt =>
    exact downloadBatch_keeps mediaFolder attempt _ _ 0 _ r hr
      (not_polled_for_download w.sync hu r hr (by omega))
  | upload attempt =>
    simp only [driverStep, UploadRun.world_sync, uploadPoll]
    exact uploadBatch_keeps mediaFolder attempt _ _ 0 _ r hr
      (not_polled_for_upload w.sync hu r hr (by omega))

theorem driverStep_destination_failed (mediaFolder : String) (op : DriverOp) (w : World)
    (hu : uniqueKeys w.sync) (r : SyncRecord) (hr : r ∈ w.sync) (hs : r.s3_status = 2) :
    ∃ r2 ∈ (driverStep mediaFolder op w).sync,
      r2.id = r.id ∧ r2.key = r.key ∧ r2.s3_status = r.s3_status ∧
      r2.s3_error = r.s3_error := by
  cases op with
  | download attempt => exact downloadBatch_destination mediaFolder attempt _ _ 0 _ r hr
  | upload attempt =>
    refine ⟨r, ?_, rfl, rfl, rfl, rfl⟩
    simp only [driverStep, UploadRun.world_sync, uploadPoll]
    exact uploadBatch_keeps mediaFolder attempt _ _ 0 _ r hr
      (not_polled_for_upload w.sync hu r hr (by omega))

theorem driverRun_ids (mediaFolder : String) (ops : List DriverOp) (w : World) :
    (driverRun mediaFolder ops w).sync.map (fun r => (r.id, r.key))
      = w.sync.map (fun r => (r.id, r.key)) := by
  induction ops generalizing w with
  | nil => rfl
  | cons op ops ih =>
    simp only [driverRun, List.foldl_cons] at ih ⊢
    rw [ih, driverStep_ids]

theorem driverRun_source_failed (mediaFolder : String) (ops : List DriverOp) (w : World)
    (hu : uniqueKeys w.sync) (r : SyncRecord) (hr : r ∈ w.sync) (hs : r.azure_status = 2) :
    r ∈ (driverRun mediaFolder ops w).sync := by
  induction ops generalizing w with
  | nil => exact hr
  | cons op ops ih =>
    simp only [driverRun, List.foldl_cons] at ih ⊢
    exact ih _ (uniqueKeys_of_ids _ _ (driverStep_ids mediaFolder op w) hu)
      (driverStep_source_failed mediaFolder op w hu r hr hs)

theorem driverRun_destination_failed (mediaFolder : String) (ops : List DriverOp) (w : World)
    (hu : uniqueKeys w.sync) (r : SyncRecord) (hr : r ∈ w.sync) (hs : r.s3_status = 2) :
    ∃ r2 ∈ (driverRun mediaFolder ops w).sync,
      r2.id = r.id ∧ r2.key = r.key ∧ r2.s3_status = 2 ∧ r2.s3_error = r.s3_error := by
  induction ops generalizing w r with
  | nil => exact ⟨r, hr, rfl, rfl, hs, rfl⟩
  | cons op ops ih =>
    simp only [driverRun, List.foldl_cons] at ih ⊢
    obtain ⟨r1, hr1, e1, e2, e3, e4⟩ := driverStep_destination_failed mediaFolder op w hu r hr hs
    obtain ⟨r2, hr2, f1, f2, f3, f4⟩ := ih _
      (uniqueKeys_of_ids _ _ (driverStep_ids mediaFolder op w) hu) r1 hr1 (e3.trans hs)
    exact ⟨r2, hr2, f1.trans e1, f2.trans e2, f3, f4.trans e4⟩

/-- C13 (counterexample): a record whose download failed shares its
(container, blob) pair with a record still pending download. The pair is polled
for the pending record, the worker's `SetAzureFlag` writes to both rows, and
after this one download round the once-failed record has `azure_status = 1`
and is among the rows the next `GetPendingS3Content` selects. -/
theorem failed_record_retried_through_twin :
    (failedAndPending.map (fun r => (r.id, r.azure_status))) = [(1, 2), (2, 0)] ∧
    GetPendingAzureContent failedAndPending = [("images", "a.jpg")] ∧
    (driverRun "/m/" [DriverOp.download (allSucceed 0)]
      { sync := failedAndPending, files := [] }).sync.map (fun r => (r.id, r.azure_status))
      = [(1, 1), (2, 1)] ∧
    (pendingS3Rows (driverRun "/m/" [DriverOp.download (allSucceed 0)]
      { sync := failedAndPending, files := [] }).sync).map (fun r => r.id) = [2, 1] := by
  decide

/-- C13 (amended): no sequence of driver operations adds, removes or reorders
records (keys `id` and pairs stay as they are); no poll ever selects a row with
a status 2; and on a sync table with at most one record per (container, blob)
pair, after any sequence of driver operations a record whose `azure_status`
was 2 is still in the table unchanged and its pair is in neither poll, and a
record whose `s3_status` was 2 still has `s3_status = 2` and its error and its
pair is not in the upload poll. -/
theorem failed_stays_failed (mediaFolder : String) (ops : List DriverOp) (w : World) :
    (driverRun mediaFolder ops w).sync.map (fun r => (r.id, r.key))
      = w.sync.map (fun r => (r.id, r.key)) ∧
    (∀ t : List SyncRecord,
      (∀ r ∈ pendingAzureRows t, r.azure_status = 0) ∧
      (∀ r ∈ pendingS3Rows t, r.azure_status = 1 ∧ r.s3_status = 0)) ∧
    (uniqueKeys w.sync →
      (∀ r ∈ w.sync, r.azure_status = 2 →
        r ∈ (driverRun mediaFolder ops w).sync ∧
        r.key ∉ GetPendingAzureContent (driverRun mediaFolder ops w).sync ∧
        r.key ∉ GetPendingS3Content (driverRun mediaFolder ops w).sync) ∧
      (∀ r ∈ w.sync, r.s3_status = 2 →
        (∃ r2 ∈ (driverRun mediaFolder ops w).sync,
          r2.id = r.id ∧ r2.key = r.key ∧ r2.s3_status = 2 ∧ r2.s3_error = r.s3_error) ∧
        r.key ∉ GetPendingS3Content (driverRun mediaFolder ops w).sync)) := by
  have hids := driverRun_ids mediaFolder ops w
  refine ⟨hids, ?_, ?_⟩
  · intro t
    refine ⟨?_, fun r hr => (mem_pendingS3Rows t r hr).2⟩
    intro r hr
    have h := List.mem_of_mem_take hr
    rw [List.mem_filter] at h
    simpa using h.2
  · intro hu
    have hu2 := uniqueKeys_of_ids _ _ hids hu
    refine ⟨?_, ?_⟩
    · intro r hr hs
      have hin := driverRun_source_failed mediaFolder ops w hu r hr hs
      exact ⟨hin, not_polled_for_download _ hu2 r hin (by omega),
        not_polled_for_upload _ hu2 r hin (by omega)⟩
    · intro r hr hs
      obtain ⟨r2, hr2, e1, e2, e3, e4⟩ :=
        driverRun_destination_failed mediaFolder ops w hu r hr hs
      refine ⟨⟨r2, hr2, e1, e2, e3, e4⟩, ?_⟩
      rw [← e2]
      exact not_polled_for_upload _ hu2 r2 hr2 (by omega)

/-- C13 (amended) at a concrete input: a download round and an upload round on
three records of which one failed to download and one failed to upload. -/
theorem failed_stays_failed_witness :
    uniqueKeys failedRecords ∧
    (driverRun "/m/" twoRounds { sync := failedRecords, files := [] }).sync.map
      (fun r => (r.id, r.azure_status, r.s3_status)) = [(1, 2, 0), (2, 1, 2), (3, 1, 1)] ∧
    (∀ r ∈ failedRecords, r.azure_status = 2 →
      r ∈ (driverRun "/m/" twoRounds { sync := failedRecords, files := [] }).sync ∧
      r.key ∉ GetPendingAzureContent
        (driverRun "/m/" twoRounds { sync := failedRecords, files := [] }).sync ∧
      r.key ∉ GetPendingS3Content
        (driverRun "/m/" twoRounds { sync := failedRecords, files := [] }).sync) :=
  ⟨by unfold uniqueKeys; decide, by decide,
   ((failed_stays_failed "/m/" twoRounds { sync := failedRecords, files := [] }).2.2
     (by unfold uniqueKeys; decide)).1⟩

/-- C12 at a concrete input: a table with rows of every status; the two rows
named in the list of `database/main.go` end pending, the others keep their
status. -/
theorem reset_live_frame_witness :
    (ResetLiveContainer scannedContainers).map (fun r => (r.name, r.status))
      = [("employees-data", 0), ("reports", 0), ("images", 100), ("archive", 200),
         ("empty", 503), ("fresh", 0)] ∧
    GetPendingContainer (ResetLiveContainer scannedContainers)
      = ["employees-data", "reports", "fresh"] ∧
    (ResetLiveContainer scannedContainers).length = scannedContainers.length :=
  ⟨by decide, by decide, (reset_live_frame scannedContainers).2.1⟩

end SyncCloudStorage
